import Mathlib

/-!
Verification of the Scoring & Allocation Engine of the Internship-Matchmaker
repository (`src/SIH_Prototype/backend/logic.py`).

The Python code is shallowly embedded: Python floats are modelled by `ℚ`
(the scores are produced by exact decimal arithmetic on small tables, so the
rational model coincides with the float computation on all inputs exercised
here), Python strings by `String`, Python lists by `List`, the Python `dict`
used as the allotment map by a total function with default `[]`, and the
fallible `overall_score` lookup of `weights[i]` (a `KeyError` past rank 4)
by `Option`.  Python's `sorted`, which is documented to be a stable sort,
is modelled by `List.insertionSort` (stable by construction) with the
corresponding descending relation; `reverse=True` in Python keeps equal keys
in their original order, which is exactly `insertionSort` with the flipped
relation.
-/

namespace SIH

/-- Helper for `pySubstr`: does `a` occur as a contiguous run inside `b`? -/
def pySubstrAux (a : List Char) : List Char → Bool
  | [] => a.isEmpty
  | c :: rest => a.isPrefixOf (c :: rest) || pySubstrAux a rest

/-- Python `a in b` substring test on strings.  (All the string primitives
below are implemented on the character list `String.data`, which is what
Python's `str` operations do on code points; Lean's built-in byte-position
versions are not kernel-reducible.) -/
def pySubstr (a b : String) : Bool :=
  pySubstrAux a.data b.data

/-- Python `str.upper()`. -/
def pyUpper (s : String) : String := ⟨s.data.map Char.toUpper⟩

/-- Python `str.strip()`: remove leading and trailing whitespace. -/
def pyStrip (s : String) : String :=
  ⟨(((s.data.dropWhile Char.isWhitespace).reverse).dropWhile Char.isWhitespace).reverse⟩

/-- Python `str.replace(a, b)` for one-character `a`, `b` (the only uses in
logic.py are `;`→`,` and `-`→space). -/
def pyReplace (s : String) (a b : Char) : String :=
  ⟨s.data.map (fun c => if c = a then b else c)⟩

/-- Python `str.split(sep)` generalized to a separator predicate; splitting
the empty string yields `[""]`, as in Python. -/
def pySplit (p : Char → Bool) : List Char → List (List Char)
  | [] => [[]]
  | c :: rest =>
    if p c then [] :: pySplit p rest
    else
      match pySplit p rest with
      | [] => [[c]]
      | g :: gs => (c :: g) :: gs

/-- `normalize_skill` from logic.py: `str(s).strip().upper()` when the stripped
string is non-empty, else `""`. -/
def normalize_skill (s : String) : String :=
  if pyStrip s ≠ "" then pyUpper (pyStrip s) else ""

/-- `CORE_TREE` from logic.py: domain → subgroup → skills. -/
def CORE_TREE : List (String × List (String × List String)) :=
  [ ("engineering",
      [ ("computer_eng", ["PYTHON", "JAVA", "C++", "C#", "JAVASCRIPT", "SQL", "GOLANG", "RUST", "AIML", "WEB DEVELOPMENT", "APP DEVELOPMENT", "CYBERSECURITY", "DATA ENGINEERING", "DEVOPS", "CLOUD COMPUTING", "BLOCKCHAIN", "COMPUTER VISION", "NLP"])
      , ("electrical_eng", ["POWER SYSTEMS", "EMBEDDED SYSTEMS", "IOT", "VLSI", "PCB DESIGN", "CONTROL SYSTEMS", "MATLAB", "SIMULINK"])
      , ("mechanical_eng", ["AUTOCAD", "SOLIDWORKS", "CATIA", "ANSYS", "THERMAL ENGINEERING", "AUTOMOTIVE DESIGN", "ROBOTICS", "3D PRINTING"])
      , ("civil_eng", ["STRUCTURAL ANALYSIS", "STAAD PRO", "ETABS", "SURVEYING", "GEOTECHNICAL ENGINEERING"]) ])
  , ("finance",
      [ ("accounting", ["TALLY", "GST", "INCOME TAX", "FINANCIAL ANALYSIS", "AUDITING", "QUICKBOOKS"])
      , ("investment_banking", ["FINANCIAL MODELING", "VALUATION", "MERGERS & ACQUISITIONS", "EQUITY RESEARCH"])
      , ("fintech", ["PAYMENT GATEWAYS", "ALGORITHMIC TRADING", "REGTECH"]) ])
  , ("law",
      [ ("corporate_law", ["CONTRACT DRAFTING", "LEGAL RESEARCH", "COMPLIANCE", "DUE DILIGENCE"])
      , ("litigation", ["CASE PREPARATION", "LEGAL BRIEFING", "MOOT COURT"])
      , ("ipr", ["PATENT LAW", "TRADEMARK LAW", "COPYRIGHT LAW"]) ])
  , ("medical_pharma",
      [ ("pharma", ["QUALITY ASSURANCE (QA)", "QUALITY CONTROL (QC)", "REGULATORY AFFAIRS", "PHARMACOVIGILANCE"])
      , ("clinical", ["CLINICAL RESEARCH", "PATIENT COUNSELING", "MEDICAL WRITING"]) ])
  , ("design_creative",
      [ ("ui_ux", ["FIGMA", "ADOBE XD", "SKETCH", "USER RESEARCH", "WIREFRAMING"])
      , ("graphic_design", ["ADOBE PHOTOSHOP", "ADOBE ILLUSTRATOR", "CANVA", "VIDEO EDITING"]) ])
  , ("business_management",
      [ ("marketing", ["SEO", "SEM", "SOCIAL MEDIA MARKETING", "CONTENT WRITING", "EMAIL MARKETING"])
      , ("sales", ["LEAD GENERATION", "CRM SOFTWARE", "NEGOTIAITON"])
      , ("operations", ["SUPPLY CHAIN", "LOGISTICS", "PROJECT MANAGEMENT"]) ]) ]

/-- `NON_CORE` from logic.py. -/
def NON_CORE : List String :=
  ["COMMUNICATION", "ENGLISH PROFICIENCY", "MS WORD", "MS EXCEL", "MS POWERPOINT", "DATA ENTRY", "BASIC MATHS", "TEAMWORK", "PROBLEM SOLVING"]

/-- `ENGINEERING_BRANCHES` from logic.py. -/
def ENGINEERING_BRANCHES : List String :=
  ["CS", "IT", "ECE", "EEE", "MECHANICAL", "CIVIL", "CHEMICAL", "BIOTECHNOLOGY"]

/-- The flattening performed in `get_skill_maps`: each skill is mapped to
`(domain/subgroup, subgroup)`, keyed by the normalized skill. -/
def CORE_LOOKUP : List (String × String × String) :=
  CORE_TREE.flatMap (fun d =>
    d.2.flatMap (fun g =>
      g.2.map (fun skill => (normalize_skill skill, d.1 ++ "/" ++ g.1, g.1))))

/-- Lookup in `CORE_LOOKUP` (the Python dict built by `get_skill_maps`; its keys
are pairwise distinct, so first-match lookup agrees with the dict). -/
def coreLookup? (s : String) : Option (String × String) :=
  (CORE_LOOKUP.find? (fun e => e.1 == s)).map (fun e => e.2)

/-- `non_core_set` from `get_skill_maps`. -/
def NON_CORE_SET : List String := NON_CORE.map normalize_skill

/-- `skill_is_core` from logic.py. -/
def skill_is_core (skill : String) : Bool :=
  (coreLookup? (normalize_skill skill)).isSome

/-- `parse_skills` from logic.py (string input case): replace `;` by `,`,
split on `,`, drop blank pieces, normalize the rest. -/
def parse_skills (s : String) : List String :=
  (((pySplit (fun c => c = ',') (pyReplace s ';' ',').data).map
      (fun l => (⟨l⟩ : String))).filter (fun p => pyStrip p ≠ "")).map normalize_skill

/-- The body of the scan over `candidate_skills` inside
`best_match_for_required_skill` (core-skill branch) for one non-exact
candidate skill `cs`: the substring check may raise the running best to 80,
then the taxonomy check may raise it to 50 (same subgroup) or 10 (same
`domain/subgroup` path, different subgroup). -/
def bm_step (req reqRow2 reqBucket cs : String) (best : ℚ) (bestSkill : String) :
    ℚ × String :=
  let p1 : ℚ × String :=
    if (pySubstr req cs || pySubstr cs req) && decide (best < 80) then (80, cs)
    else (best, bestSkill)
  match coreLookup? cs with
  | some csInfo =>
    if csInfo.2 = reqBucket then
      (if p1.1 < 50 then ((50 : ℚ), cs) else p1)
    else if csInfo.1 = reqRow2 then
      (if p1.1 < 10 then ((10 : ℚ), cs) else p1)
    else p1
  | none => p1

/-- The scan over `candidate_skills` inside `best_match_for_required_skill`
(core-skill branch).  State `(best, bestSkill)` is threaded exactly as the
Python loop threads `best_score` / `best_match_skill`; an exact match
returns 100 immediately. -/
def bm_loop (req reqRow2 reqBucket : String) :
    List String → ℚ → String → ℚ × String
  | [], best, bestSkill => (best, bestSkill)
  | cs :: rest, best, bestSkill =>
    if cs = req then (100, cs)
    else
      bm_loop req reqRow2 reqBucket rest
        (bm_step req reqRow2 reqBucket cs best bestSkill).1
        (bm_step req reqRow2 reqBucket cs best bestSkill).2

/-- `best_match_for_required_skill` from logic.py. -/
def best_match_for_required_skill (required_skill : String)
    (candidate_skills : List String) : ℚ × String :=
  let req := normalize_skill required_skill
  if req ∈ NON_CORE_SET then
    if req ∈ candidate_skills then (100, req) else (0, "")
  else
    match coreLookup? req with
    | some reqInfo => bm_loop req reqInfo.1 reqInfo.2 candidate_skills 0 ""
    | none => (0, "")

/-- `np.mean` on a list of rationals (only ever applied to non-empty lists by
the embedded code). -/
def npMean (l : List ℚ) : ℚ := l.sum / l.length

/-- `compute_skills_percent` from logic.py; `core_weight` is the Python
default argument `0.8` made explicit. -/
def compute_skills_percent (required_skills candidate_skills : List String)
    (core_weight : ℚ) : ℚ :=
  if required_skills = [] then 100
  else
    let req_norm := required_skills.map normalize_skill
    let cand_norm := candidate_skills.map normalize_skill
    let core_req := req_norm.filter (fun s => skill_is_core s)
    let non_core_req := req_norm.filter (fun s => !(skill_is_core s))
    let core_scores := core_req.map (fun rs => (best_match_for_required_skill rs cand_norm).1)
    let non_core_scores := non_core_req.map (fun rs => (best_match_for_required_skill rs cand_norm).1)
    let avg_core := if core_scores ≠ [] then npMean core_scores else 100
    let avg_non_core := if non_core_scores ≠ [] then npMean non_core_scores else 100
    if core_req = [] then avg_non_core
    else if non_core_req = [] then avg_core
    else core_weight * avg_core + (1 - core_weight) * avg_non_core

/-- `education_score` from logic.py: hierarchical rule ladder. -/
def education_score (candidate_edu : String)
    (required_degrees required_branches : List String) : ℚ :=
  let c_edu := normalize_skill candidate_edu
  if c_edu = "" ∨ required_degrees = [] then 0
  else
    let req_deg := required_degrees.map normalize_skill
    let req_branch := required_branches.map normalize_skill
    if req_deg.any (fun d => pySubstr d c_edu) &&
        (req_branch.isEmpty || req_branch.any (fun b => pySubstr b c_edu)) then 100
    else if req_deg.any (fun d => pySubstr d c_edu) then 80
    else if req_deg.contains "B.TECH" && (pySubstr "BCA" c_edu || pySubstr "B.SC" c_edu)
        && (pySubstr "CS" c_edu || pySubstr "IT" c_edu) then 60
    else if pySubstr "DIPLOMA" c_edu && ENGINEERING_BRANCHES.any (fun b => pySubstr b c_edu) then 40
    else if pySubstr "12TH" c_edu || pySubstr "XII" c_edu then 20
    else 0

/-- `location_score` from logic.py. -/
def location_score (c_city c_state i_city i_state : String) : ℚ :=
  if c_city != "" && i_city != "" && (normalize_skill c_city == normalize_skill i_city) then 100
  else if c_state != "" && i_state != "" && (normalize_skill c_state == normalize_skill i_state) then 66
  else 33

/-- Python `str.split()` with no argument (after the `-`→space replacement done
by `interest_score`): split on whitespace, dropping empty pieces. -/
def pyTokens (s : String) : List String :=
  ((pySplit Char.isWhitespace (pyReplace s '-' ' ').data).map
    (fun l => (⟨l⟩ : String))).filter (fun t => t ≠ "")

/-- `interest_score` from logic.py. -/
def interest_score (candidate_interest internship_post : String) : ℚ :=
  let c_int := normalize_skill candidate_interest
  let i_post := normalize_skill internship_post
  if c_int = "" ∨ i_post = "" then 0
  else if pySubstr i_post c_int then 100
  else if (pyTokens c_int).any (fun t => (pyTokens i_post).contains t) then 50
  else 25

/-- The `scores` dict built per candidate: one rational per criterion name. -/
structure Scores where
  skills : ℚ
  education : ℚ
  location : ℚ
  interest : ℚ
deriving DecidableEq

/-- Python `scores.get(criteria, 0.0)` on the four-key score dict. -/
def scores_get (sc : Scores) (k : String) : ℚ :=
  if k = "skills" then sc.skills
  else if k = "education" then sc.education
  else if k = "location" then sc.location
  else if k = "interest" then sc.interest
  else 0

/-- The fixed table `weights = {1: 0.4, 2: 0.3, 3: 0.2, 4: 0.1}` of
`overall_score`; indexing any other rank raises `KeyError` in Python,
modelled by `none`. -/
def overall_weights : ℕ → Option ℚ
  | 1 => some (4/10)
  | 2 => some (3/10)
  | 3 => some (2/10)
  | 4 => some (1/10)
  | _ => none

/-- The accumulation loop of `overall_score` (`enumerate(priority_order, 1)`). -/
def overall_loop (sc : Scores) : ℕ → List String → ℚ → Option ℚ
  | _, [], acc => some acc
  | i, c :: rest, acc =>
    match overall_weights i with
    | some w => overall_loop sc (i + 1) rest (acc + scores_get sc c * w)
    | none => none

/-- `overall_score` from logic.py. -/
def overall_score (sc : Scores) (priority_order : List String) : Option ℚ :=
  overall_loop sc 1 priority_order 0

/-- A candidate row (the fields of the uploaded CSV that the engine reads). -/
structure Candidate where
  name : String
  education : String
  skills : String
  city : String
  state : String
  interest : String
  gender : String
  category : String
  past_participation : String
deriving DecidableEq

/-- An internship position (the fields of a selected job dict). -/
structure Job where
  key : String
  post : String
  company : String
  offers : ℕ
  degree : List String
  branch : List String
  skills : List String
  city : String
  state : String
  priority : List String
deriving DecidableEq

/-- `get_diversity_marker` from logic.py. -/
def get_diversity_marker (row : Candidate) : String :=
  let gender := pyUpper row.gender
  let category := pyUpper row.category
  let m1 : List String := if pySubstr "FEMALE" gender then ["♀️"] else []
  let m2 : List String := if pySubstr "PWD" category then ["♿"] else []
  let m3 : List String := if pySubstr "SC" category then ["🔵"] else []
  let m4 : List String := if pySubstr "ST" category then ["🔴"] else []
  String.intercalate " " (m1 ++ m2 ++ m3 ++ m4)

/-- The `scores` dict built for one row inside `compute_ranking`. -/
def ranking_scores (row : Candidate) (internship : Job) : Scores :=
  { skills := compute_skills_percent internship.skills (parse_skills row.skills) (8/10)
  , education := education_score row.education internship.degree internship.branch
  , location := location_score row.city row.state internship.city internship.state
  , interest := interest_score row.interest internship.post }

/-- `str(row.get("past_participation", "")).strip().upper() == "YES"`. -/
def past_participation_yes (row : Candidate) : Bool :=
  pyUpper (pyStrip row.past_participation) == "YES"

/-- The `total` computed per row inside `compute_ranking`: the priority-weighted
`overall_score` when a (non-empty) priority order is present — Python's
`internship.get("priority")` truthiness treats a missing/empty priority
identically — otherwise `np.mean(list(scores.values()))`; then the
past-participation `* 0.80` penalty. -/
def ranking_total (row : Candidate) (internship : Job) : Option ℚ :=
  let sc := ranking_scores row internship
  let base : Option ℚ :=
    if internship.priority ≠ [] then overall_score sc internship.priority
    else some ((sc.skills + sc.education + sc.location + sc.interest) / 4)
  base.map (fun t => if past_participation_yes row then t * (8/10) else t)

/-- The floor of a rational, computed on its numerator and denominator. -/
def ratFloor (q : ℚ) : ℤ := q.num.fdiv q.den

/-- Python `round(q, 2)`.  (Python rounds the underlying binary float, sending
exact halves to even; such halves never arise from the decimal score tables
used here, so half-up rounding on `ℚ` agrees with it on all inputs below.) -/
def round2 (q : ℚ) : ℚ := ((ratFloor (q * 100 + 1/2) : ℤ) : ℚ) / 100

/-- The value returned by `calculate_all_scores_for_job`: the four rounded
criterion scores plus the `"total"` entry added at the end. -/
structure AllScores where
  skills : ℚ
  education : ℚ
  location : ℚ
  interest : ℚ
  total : ℚ
deriving DecidableEq

/-- `calculate_all_scores_for_job` from logic.py.  It indexes
`internship["priority"]` with no fallback, so its result is `none` exactly
when `overall_score` fails (a priority order longer than four criteria). -/
def calculate_all_scores_for_job (candidate_row : Candidate) (internship : Job) :
    Option AllScores :=
  let sc : Scores :=
    { skills := round2 (compute_skills_percent internship.skills (parse_skills candidate_row.skills) (8/10))
    , education := round2 (education_score candidate_row.education internship.degree internship.branch)
    , location := round2 (location_score candidate_row.city candidate_row.state internship.city internship.state)
    , interest := round2 (interest_score candidate_row.interest internship.post) }
  (overall_score sc internship.priority).map (fun t =>
    let total0 := round2 t
    let total := if past_participation_yes candidate_row then round2 (total0 * (8/10)) else total0
    { skills := sc.skills, education := sc.education, location := sc.location
    , interest := sc.interest, total := total })

/-- `is_diversity_candidate` from logic.py. -/
def is_diversity_candidate (row : Candidate) : Bool :=
  ["SC", "ST", "PWD"].any (fun c => pySubstr c (pyUpper row.category))

/-- One element of `all_scores_matrix` in `generate_smart_allotment`. -/
structure MatchRec where
  candidate_name : String
  row_data : Candidate
  job_key : String
  post : String
  total_score : ℚ
  all_scores : AllScores
  is_female : Bool
  is_diversity : Bool
deriving DecidableEq

/-- Builds one matrix entry for a (candidate, job) pair. -/
def make_match (row : Candidate) (job : Job) : Option MatchRec :=
  (calculate_all_scores_for_job row job).map (fun s =>
    { candidate_name := row.name
    , row_data := row
    , job_key := job.key
    , post := job.post
    , total_score := s.total
    , all_scores := s
    , is_female := pySubstr "FEMALE" (pyUpper row.gender)
    , is_diversity := is_diversity_candidate row })

/-- Sequences the matrix construction over a list of (candidate, job) pairs;
`none` as soon as one score computation fails (the Python loop raises). -/
def build_matrix_go : List (Candidate × Job) → Option (List MatchRec)
  | [] => some []
  | p :: rest =>
    match make_match p.1 p.2 with
    | some m => (build_matrix_go rest).map (fun t => m :: t)
    | none => none

/-- Step 1 of `generate_smart_allotment`: the candidate-major score matrix. -/
def build_matrix (cands : List Candidate) (jobs : List Job) : Option (List MatchRec) :=
  build_matrix_go (cands.flatMap (fun row => jobs.map (fun job => (row, job))))

/-- The descending-score ordering used by all the engine's `sorted(...,
key=lambda x: x["total_score"], reverse=True)` calls. -/
def score_ge (x y : MatchRec) : Prop := y.total_score ≤ x.total_score

instance : DecidableRel score_ge :=
  fun x y => inferInstanceAs (Decidable (y.total_score ≤ x.total_score))

instance : IsTotal MatchRec score_ge :=
  ⟨fun a b => le_total b.total_score a.total_score⟩

instance : IsTrans MatchRec score_ge :=
  ⟨fun _ _ _ hab hbc => le_trans hbc hab⟩

/-- Step 2 of `generate_smart_allotment`: one job's pool, score-sorted
descending.  Python's `sorted` is stable, which `insertionSort` reproduces. -/
def job_pool (matrix : List MatchRec) (jk : String) : List MatchRec :=
  List.insertionSort score_ge (matrix.filter (fun m => m.job_key == jk))

/-- The allocation state: `final_allotment_map` (a dict keyed by job key,
modelled as a total function that is `[]` off the touched keys) and
`allocated_candidates_set`. -/
structure AllocState where
  amap : String → List MatchRec
  aset : List String

/-- `{job["key"]: [] for job in selected_jobs}` and the empty set. -/
def init_state : AllocState := { amap := fun _ => [], aset := [] }

/-- Functional update of the allotment map at one key. -/
def map_update (f : String → List MatchRec) (k : String) (v : List MatchRec) :
    String → List MatchRec :=
  fun q => if q = k then v else f q

/-- One quota reservation inside Pass 1: find the first pool entry satisfying
`p` whose name is not yet in the allocated set; if found, append it to the
job's list and add its name to the set. -/
def quota_pick (pool : List MatchRec) (p : MatchRec → Bool) (jk : String)
    (st : AllocState) : AllocState :=
  match pool.find? (fun c => p c && !(st.aset.contains c.candidate_name)) with
  | some b =>
    { amap := map_update st.amap jk (st.amap jk ++ [b])
    , aset := b.candidate_name :: st.aset }
  | none => st

/-- The Pass-1 body for one job: skip when `offers == 0`, otherwise reserve the
best available female, then the best available diversity candidate. -/
def pass1_job (pool : List MatchRec) (job : Job) (st : AllocState) : AllocState :=
  if job.offers = 0 then st
  else quota_pick pool (fun c => c.is_diversity) job.key
        (quota_pick pool (fun c => c.is_female) job.key st)

/-- Pass 1 (Step 3) of `generate_smart_allotment`. -/
def pass1 (matrix : List MatchRec) (jobs : List Job) : AllocState :=
  jobs.foldl (fun st job => pass1_job (job_pool matrix job.key) job st) init_state

/-- `job_offer_limits = {j["key"]: j["offers"] for j in selected_jobs}`
(later dict writes win on duplicate keys). -/
def job_offer_limits (jobs : List Job) (k : String) : ℕ :=
  (((jobs.filter (fun j => j.key == k)).getLast?).map Job.offers).getD 0

/-- `remaining_matches_pool`: the score-sorted matches of candidates not yet
allocated after Pass 1. -/
def pass2_pool (matrix : List MatchRec) (st : AllocState) : List MatchRec :=
  List.insertionSort score_ge (matrix.filter (fun m => !(st.aset.contains m.candidate_name)))

/-- The Pass-2 body for one pooled match: allocate when the candidate is still
unassigned and the job still has capacity. -/
def pass2_step (limits : String → ℕ) (st : AllocState) (m : MatchRec) : AllocState :=
  if !(st.aset.contains m.candidate_name)
      && decide ((st.amap m.job_key).length < limits m.job_key) then
    { amap := map_update st.amap m.job_key (st.amap m.job_key ++ [m])
    , aset := m.candidate_name :: st.aset }
  else st

/-- Pass 2 (Step 4) of `generate_smart_allotment`. -/
def pass2 (matrix : List MatchRec) (jobs : List Job) (st : AllocState) : AllocState :=
  (pass2_pool matrix st).foldl (pass2_step (job_offer_limits jobs)) st

/-- The allocation state after both passes. -/
def alloc_run (matrix : List MatchRec) (jobs : List Job) : AllocState :=
  pass2 matrix jobs (pass1 matrix jobs)

/-- Python dict key iteration order for `final_allotment_map`: first-occurrence
order of the selected jobs' keys. -/
def py_dict_keys (ks : List String) : List String :=
  ks.foldl (fun acc k => if k ∈ acc then acc else acc ++ [k]) []

/-- The flattened `(job_key, allotted_candidates)` iteration of Step 5. -/
def allot_entries (st : AllocState) (jobs : List Job) : List MatchRec :=
  (py_dict_keys (jobs.map Job.key)).flatMap (fun k => st.amap k)

/-- `candidate_allotment_lookup`: the per-name dict built in Step 5 (a later
entry with the same name overwrites an earlier one, hence `getLast?`). -/
def candidate_allotment_lookup (st : AllocState) (jobs : List Job) (name : String) :
    Option MatchRec :=
  ((allot_entries st jobs).filter (fun m => m.candidate_name == name)).getLast?

/-- One record of the final results list. -/
structure OutRec where
  name : String
  diversity : String
  status : String
  allotted_job : String
  match_pct : ℚ
  skills_pct : ℚ
  education_pct : ℚ
  location_pct : ℚ
  interest_pct : ℚ
  gender : String
  category : String
deriving DecidableEq

/-- The record emitted for one candidate row in Step 5. -/
def make_out_rec (row : Candidate) : Option MatchRec → OutRec
  | some md =>
    { name := row.name, diversity := get_diversity_marker row, status := "Allotted"
    , allotted_job := md.post, match_pct := md.total_score
    , skills_pct := md.all_scores.skills, education_pct := md.all_scores.education
    , location_pct := md.all_scores.location, interest_pct := md.all_scores.interest
    , gender := pyUpper row.gender, category := pyUpper row.category }
  | none =>
    { name := row.name, diversity := get_diversity_marker row, status := "Waitlisted"
    , allotted_job := "N/A", match_pct := 0, skills_pct := 0, education_pct := 0
    , location_pct := 0, interest_pct := 0
    , gender := pyUpper row.gender, category := pyUpper row.category }

/-- The sort key of the final `final_results_list.sort(...)`:
`(x["Status"] != "Allotted", -x["Match %"])`, first component as 0/1. -/
def status_key (r : OutRec) : ℕ := if r.status = "Allotted" then 0 else 1

/-- The ascending lexicographic order on that key. -/
def out_le (x y : OutRec) : Prop :=
  status_key x < status_key y ∨ (status_key x = status_key y ∧ y.match_pct ≤ x.match_pct)

instance : DecidableRel out_le := fun x y =>
  inferInstanceAs (Decidable (status_key x < status_key y ∨
    (status_key x = status_key y ∧ y.match_pct ≤ x.match_pct)))

instance : IsTotal OutRec out_le := by
  constructor
  intro a b
  rcases lt_trichotomy (status_key a) (status_key b) with h | h | h
  · exact Or.inl (Or.inl h)
  · rcases le_total b.match_pct a.match_pct with h2 | h2
    · exact Or.inl (Or.inr ⟨h, h2⟩)
    · exact Or.inr (Or.inr ⟨h.symm, h2⟩)
  · exact Or.inr (Or.inl h)

instance : IsTrans OutRec out_le := by
  constructor
  intro a b c hab hbc
  rcases hab with h1 | ⟨h1, h1q⟩
  · rcases hbc with h2 | ⟨h2, _⟩
    · exact Or.inl (h1.trans h2)
    · exact Or.inl (h2 ▸ h1)
  · rcases hbc with h2 | ⟨h2, h2q⟩
    · exact Or.inl (h1 ▸ h2)
    · exact Or.inr ⟨h1.trans h2, h2q.trans h1q⟩

/-- The final stable sort of Step 5 (Python `list.sort` is stable). -/
def final_sort (l : List OutRec) : List OutRec := List.insertionSort out_le l

/-- `generate_smart_allotment` from logic.py: build the matrix, run the two
allocation passes, emit one record per candidate row, and sort the result. -/
def generate_smart_allotment (df_candidates : List Candidate)
    (selected_jobs : List Job) : Option (List OutRec) :=
  (build_matrix df_candidates selected_jobs).map (fun matrix =>
    let st := alloc_run matrix selected_jobs
    final_sort (df_candidates.map (fun row =>
      make_out_rec row (candidate_allotment_lookup st selected_jobs row.name))))

/-! Spec-side quantities for the aggregate skill score (the partitions and
partition averages named by the specification), used to state C2. -/

/-- The core partition of the normalized required skills. -/
def spec_core_req (required : List String) : List String :=
  (required.map normalize_skill).filter (fun s => skill_is_core s)

/-- The non-core partition of the normalized required skills. -/
def spec_non_core_req (required : List String) : List String :=
  (required.map normalize_skill).filter (fun s => !(skill_is_core s))

/-- The mean best-match score of the core partition. -/
def spec_avg_core (required candidate : List String) : ℚ :=
  npMean ((spec_core_req required).map
    (fun rs => (best_match_for_required_skill rs (candidate.map normalize_skill)).1))

/-- The mean best-match score of the non-core partition. -/
def spec_avg_non_core (required candidate : List String) : ℚ :=
  npMean ((spec_non_core_req required).map
    (fun rs => (best_match_for_required_skill rs (candidate.map normalize_skill)).1))

/-- The score tier a single non-exact candidate skill `cs` contributes for a
core required skill (substring 80 / same subgroup 50 / same `domain/subgroup`
path 10 / nothing 0). -/
def bm_tier0 (req reqRow2 reqBucket cs : String) : ℚ :=
  max (if pySubstr req cs || pySubstr cs req then 80 else 0)
    (match coreLookup? cs with
     | some info =>
       if info.2 = reqBucket then 50
       else if info.1 = reqRow2 then 10
       else 0
     | none => 0)

/-- The score tier a single candidate skill `cs` contributes for a core
required skill, exact match included. -/
def bm_tier (req reqRow2 reqBucket cs : String) : ℚ :=
  if cs = req then 100 else bm_tier0 req reqRow2 reqBucket cs

/-- The concrete candidate used for the C5 counterexample. -/
def c5_row : Candidate :=
  { name := "X", education := "B.TECH CS", skills := "PYTHON", city := "Pune"
  , state := "Maharashtra", interest := "", gender := "", category := ""
  , past_participation := "" }

/-- The concrete position (with an empty priority order) used for the C5
counterexample. -/
def c5_job : Job :=
  { key := "j1", post := "P", company := "Co", offers := 1, degree := ["B.TECH"]
  , branch := [], skills := ["PYTHON"], city := "Pune", state := "Maharashtra"
  , priority := [] }

/-- Candidate rows and positions for the C1 allocation counterexample: one
female candidate, one SC-category candidate, one position with capacity 1. -/
def c1_rowA : Candidate :=
  { name := "A", education := "", skills := "", city := "", state := ""
  , interest := "", gender := "FEMALE", category := "", past_participation := "" }

/-- Second candidate row for C1: male, SC category. -/
def c1_rowB : Candidate :=
  { name := "B", education := "", skills := "", city := "", state := ""
  , interest := "", gender := "MALE", category := "SC", past_participation := "" }

/-- The capacity-1 position for the C1 counterexample. -/
def c1_job : Job :=
  { key := "k1", post := "Quota Post", company := "", offers := 1, degree := []
  , branch := [], skills := [], city := "", state := "", priority := ["skills"] }

/-- A capacity-2 copy of the position, used for the C1 witness. -/
def w1_job : Job :=
  { key := "k1", post := "Quota Post", company := "", offers := 2, degree := []
  , branch := [], skills := [], city := "", state := "", priority := ["skills"] }

/-- The concrete matrix of the C1 witness run. -/
def w1_matrix : List MatchRec := (build_matrix [c1_rowA, c1_rowB] [w1_job]).getD []

/-- The concrete output of the C1 witness run. -/
def w1_out : List OutRec := (generate_smart_allotment [c1_rowA, c1_rowB] [w1_job]).getD []

/-- Two candidate rows sharing the name `D`, for the C10 duplicate-name run. -/
def w10_rowA : Candidate :=
  { name := "D", education := "", skills := "", city := "", state := ""
  , interest := "", gender := "FEMALE", category := "", past_participation := "" }

/-- Second row with the same name `D`. -/
def w10_rowB : Candidate :=
  { name := "D", education := "", skills := "", city := "", state := ""
  , interest := "", gender := "MALE", category := "", past_participation := "" }

/-- The single position of the C10 run. -/
def w10_job : Job :=
  { key := "kX", post := "P10", company := "", offers := 1, degree := []
  , branch := [], skills := [], city := "", state := "", priority := ["skills"] }

/-- The concrete matrix of the C10 run. -/
def w10_matrix : List MatchRec := (build_matrix [w10_rowA, w10_rowB] [w10_job]).getD []

/-- The concrete output of the C10 run. -/
def w10_out : List OutRec := (generate_smart_allotment [w10_rowA, w10_rowB] [w10_job]).getD []

/-- A placeholder match record (only used as a `getD` default). -/
def dummy_match : MatchRec :=
  { candidate_name := ""
  , row_data := { name := "", education := "", skills := "", city := "", state := ""
                , interest := "", gender := "", category := "", past_participation := "" }
  , job_key := "", post := "", total_score := 0
  , all_scores := { skills := 0, education := 0, location := 0, interest := 0, total := 0 }
  , is_female := false, is_diversity := false }

/-- The match record the C10 run assigns to the duplicated name `D`. -/
def w10_m : MatchRec :=
  (candidate_allotment_lookup (alloc_run w10_matrix [w10_job]) [w10_job]
    w10_rowA.name).getD dummy_match

/-- A one-element concrete pool entry (a female candidate) for the C6
witness. -/
def c6_m1 : MatchRec :=
  { candidate_name := "F", row_data := dummy_match.row_data, job_key := "kq"
  , post := "Q", total_score := 50
  , all_scores := { skills := 0, education := 0, location := 0, interest := 0, total := 50 }
  , is_female := true, is_diversity := false }

/-- The position of the C6 witness. -/
def c6_job : Job :=
  { key := "kq", post := "Q", company := "", offers := 1, degree := []
  , branch := [], skills := [], city := "", state := "", priority := [] }

/-- Witness inputs bound to names (concrete lists and scores used when the
claim theorems are instantiated). -/
def c2w_req : List String := ["PYTHON", "COMMUNICATION"]

/-- Witness candidate skills for C2. -/
def c2w_cand : List String := ["PYTHON"]

/-- Witness score vector for C5. -/
def c5w_scores : Scores := { skills := 100, education := 80, location := 33, interest := 25 }

/-- Witness priority order for C5. -/
def c5w_priority : List String := ["skills", "education", "location", "interest"]

/-- Witness matrix (empty) for C9. -/
def c9w_matrix : List MatchRec := []

/-- Witness job list for C9. -/
def c9w_jobs : List Job := [c5_job]

/-- Witness candidate list for C4. -/
def c4w_cands : List Candidate := [c5_row]

/-- Witness job list for C4. -/
def c4w_jobs : List Job := [c5_job]

/-- Witness candidate list for C1. -/
def w1_cands : List Candidate := [c1_rowA, c1_rowB]

/-- Witness job list for C1. -/
def w1_jobs : List Job := [w1_job]

/-- Witness candidate list for C10. -/
def w10_cands : List Candidate := [w10_rowA, w10_rowB]

/-- Witness job list for C10. -/
def w10_jobs : List Job := [w10_job]

/-- Witness matrix for C6. -/
def c6w_matrix : List MatchRec := [c6_m1]

/-- Rows for the C9 duplicate-key counterexample: two female candidates and
two SC-category candidates. -/
def c9x_rowF1 : Candidate :=
  { name := "F1", education := "", skills := "", city := "", state := ""
  , interest := "", gender := "FEMALE", category := "", past_participation := "" }

/-- Second female row for the C9 counterexample. -/
def c9x_rowF2 : Candidate :=
  { name := "F2", education := "", skills := "", city := "", state := ""
  , interest := "", gender := "FEMALE", category := "", past_participation := "" }

/-- First SC-category row for the C9 counterexample. -/
def c9x_rowD1 : Candidate :=
  { name := "D1", education := "", skills := "", city := "", state := ""
  , interest := "", gender := "MALE", category := "SC", past_participation := "" }

/-- Second SC-category row for the C9 counterexample. -/
def c9x_rowD2 : Candidate :=
  { name := "D2", education := "", skills := "", city := "", state := ""
  , interest := "", gender := "MALE", category := "SC", past_participation := "" }

/-- The candidate list of the C9 counterexample run. -/
def c9x_cands : List Candidate := [c9x_rowF1, c9x_rowD1, c9x_rowF2, c9x_rowD2]

/-- A capacity-3 position for the C9 counterexample. -/
def c9x_job : Job :=
  { key := "k9", post := "P9", company := "", offers := 3, degree := []
  , branch := [], skills := [], city := "", state := "", priority := ["skills"] }

/-- The same position selected twice (reachable: the allotment endpoint does
not deduplicate the client-supplied job keys). -/
def c9x_jobs : List Job := [c9x_job, c9x_job]

/-- The concrete matrix of the C9 counterexample run. -/
def c9x_matrix : List MatchRec := (build_matrix c9x_cands c9x_jobs).getD []

section AuxLemmas

lemma bm_tier0_nonneg (req p b cs : String) : 0 ≤ bm_tier0 req p b cs := by
  unfold bm_tier0
  apply le_max_of_le_left
  split <;> norm_num

lemma bm_tier0_le_100 (req p b cs : String) : bm_tier0 req p b cs ≤ 100 := by
  unfold bm_tier0
  apply max_le
  · split <;> norm_num
  · rcases h : coreLookup? cs with _ | info <;> simp only [h]
    · norm_num
    · split
      · norm_num
      · split <;> norm_num

lemma bm_tier_le_100 (req p b cs : String) : bm_tier req p b cs ≤ 100 := by
  unfold bm_tier
  split
  · exact le_refl 100
  · exact bm_tier0_le_100 req p b cs

/-- The first component of one loop step is a `max` with the skill's tier. -/
lemma bm_step_fst (req p b cs : String) (best : ℚ) (bs : String) (h0 : 0 ≤ best) :
    (bm_step req p b cs best bs).1 = max best (bm_tier0 req p b cs) := by
  unfold bm_step bm_tier0
  set P1 : ℚ × String :=
    if (pySubstr req cs || pySubstr cs req) && decide (best < 80) then ((80 : ℚ), cs)
    else (best, bs) with hdefP1
  have hp1 : P1.1 = max best (if pySubstr req cs || pySubstr cs req then (80 : ℚ) else 0) := by
    rw [hdefP1]
    by_cases hsub : (pySubstr req cs || pySubstr cs req) = true
    · rcases le_or_lt (80 : ℚ) best with hb | hb
      · simp [hsub, not_lt.2 hb, max_eq_left hb]
      · simp [hsub, hb, max_eq_right hb.le]
    · simp [hsub, max_eq_left h0]
  have hs0 : (0 : ℚ) ≤ (if pySubstr req cs || pySubstr cs req then (80 : ℚ) else 0) := by
    split <;> norm_num
  rcases hlook : coreLookup? cs with _ | info
  · simp only [hlook]
    rw [hp1, max_eq_left hs0]
  · simp only [hlook]
    by_cases hb : info.2 = b
    · simp only [if_pos hb]
      rcases lt_or_le P1.1 50 with h | h
      · rw [if_pos h, ← max_assoc, ← hp1]
        have : P1.1 ≤ (50 : ℚ) := h.le
        show (50 : ℚ) = max P1.1 50
        rw [max_eq_right this]
      · rw [if_neg (not_lt.2 h), ← max_assoc, ← hp1, max_eq_left h]
    · simp only [if_neg hb]
      by_cases hp : info.1 = p
      · simp only [if_pos hp]
        rcases lt_or_le P1.1 10 with h | h
        · rw [if_pos h, ← max_assoc, ← hp1]
          show (10 : ℚ) = max P1.1 10
          rw [max_eq_right h.le]
        · rw [if_neg (not_lt.2 h), ← max_assoc, ← hp1, max_eq_left h]
      · simp only [if_neg hp]
        rw [hp1, max_eq_left hs0]

lemma foldl_max_of_top (t : α → ℚ) (ht : ∀ c, t c ≤ 100) :
    ∀ l : List α, l.foldl (fun acc cs => max acc (t cs)) 100 = 100 := by
  intro l
  induction l with
  | nil => rfl
  | cons c rest ih =>
    simp only [List.foldl_cons, max_eq_left (ht c), ih]

lemma foldl_max_mono_init (t : α → ℚ) (l : List α) :
    ∀ x y : ℚ, x ≤ y →
      l.foldl (fun acc cs => max acc (t cs)) x ≤ l.foldl (fun acc cs => max acc (t cs)) y := by
  induction l with
  | nil => intro x y h; exact h
  | cons c rest ih =>
    intro x y h
    exact ih _ _ (max_le_max h le_rfl)

/-- The running best score of `bm_loop` is a running maximum of per-skill
tiers; in particular it does not depend on the carried best-match name. -/
lemma bm_loop_fst (req p b : String) :
    ∀ (l : List String) (best : ℚ) (bs : String), 0 ≤ best → best ≤ 100 →
      (bm_loop req p b l best bs).1 =
        l.foldl (fun acc cs => max acc (bm_tier req p b cs)) best := by
  intro l
  induction l with
  | nil => intro best bs _ _; rfl
  | cons cs rest ih =>
    intro best bs h0 h100
    by_cases hcs : cs = req
    · have htier : bm_tier req p b cs = 100 := by rw [bm_tier, if_pos hcs]
      simp only [bm_loop, if_pos hcs, List.foldl_cons, htier, max_eq_right h100,
        foldl_max_of_top _ (bm_tier_le_100 req p b)]
    · simp only [bm_loop, if_neg hcs]
      have hfst := bm_step_fst req p b cs best bs h0
      have h0' : 0 ≤ (bm_step req p b cs best bs).1 := by
        rw [hfst]; exact le_trans h0 (le_max_left _ _)
      have h100' : (bm_step req p b cs best bs).1 ≤ 100 := by
        rw [hfst]; exact max_le h100 (bm_tier0_le_100 req p b cs)
      rw [ih _ _ h0' h100', hfst, List.foldl_cons]
      congr 2
      rw [bm_tier, if_neg hcs]

lemma foldl_max_insert (t : α → ℚ) (x : α) :
    ∀ (l1 l2 : List α) (best : ℚ),
      (l1 ++ l2).foldl (fun acc cs => max acc (t cs)) best ≤
        (l1 ++ x :: l2).foldl (fun acc cs => max acc (t cs)) best := by
  intro l1
  induction l1 with
  | nil =>
    intro l2 best
    simp only [List.nil_append, List.foldl_cons]
    exact foldl_max_mono_init t l2 _ _ (le_max_left _ _)
  | cons c rest ih =>
    intro l2 best
    simp only [List.cons_append, List.foldl_cons]
    exact ih l2 _

/-- Monotonicity of the best-match score under inserting any additional
candidate skill. -/
lemma bm_mono_insert (required s : String) (l1 l2 : List String) :
    (best_match_for_required_skill required (l1 ++ l2)).1 ≤
      (best_match_for_required_skill required (l1 ++ s :: l2)).1 := by
  unfold best_match_for_required_skill
  by_cases hnc : normalize_skill required ∈ NON_CORE_SET
  · simp only [if_pos hnc]
    by_cases hmem : normalize_skill required ∈ l1 ++ l2
    · have hmem2 : normalize_skill required ∈ l1 ++ s :: l2 := by
        rcases List.mem_append.1 hmem with h | h
        · exact List.mem_append.2 (Or.inl h)
        · exact List.mem_append.2 (Or.inr (List.mem_cons_of_mem _ h))
      simp [hmem, hmem2]
    · simp only [if_neg hmem]
      split <;> norm_num
  · simp only [if_neg hnc]
    rcases hlook : coreLookup? (normalize_skill required) with _ | info
    · exact le_refl 0
    · rw [bm_loop_fst _ _ _ _ 0 "" le_rfl (by norm_num),
        bm_loop_fst _ _ _ _ 0 "" le_rfl (by norm_num)]
      exact foldl_max_insert _ s l1 l2 0

set_option maxRecDepth 10000 in
/-- Any two entries of the flattened taxonomy with the same
`domain/subgroup` path have the same subgroup (the path determines the
subgroup, since the path ends in it). -/
lemma core_lookup_path_bucket :
    ∀ e1 ∈ CORE_LOOKUP, ∀ e2 ∈ CORE_LOOKUP, e1.2.1 = e2.2.1 → e1.2.2 = e2.2.2 := by
  decide

lemma coreLookup?_mem {s : String} {info : String × String}
    (h : coreLookup? s = some info) : (s, info.1, info.2) ∈ CORE_LOOKUP := by
  unfold coreLookup? at h
  rcases hf : CORE_LOOKUP.find? (fun e => e.1 == s) with _ | e
  · rw [hf] at h; exact absurd h (by simp)
  · rw [hf] at h
    have hmem := List.mem_of_find?_eq_some hf
    have hpred := List.find?_some hf
    have hs : e.1 = s := by simpa using hpred
    have he : info = e.2 := by simpa using h.symm
    rw [he, ← hs]
    exact hmem

/-- The 10-point tier of `best_match_for_required_skill` is unreachable: the
stored "broader category" component is the full `domain/subgroup` path, so it
can only coincide for skills in the same subgroup, which the 50-point branch
has already consumed. -/
lemma bm_tier0_ne_10 {req cs : String} {reqInfo : String × String}
    (hreq : coreLookup? req = some reqInfo) :
    bm_tier0 req reqInfo.1 reqInfo.2 cs =
      max (if pySubstr req cs || pySubstr cs req then (80 : ℚ) else 0)
        (match coreLookup? cs with
         | some info => if info.2 = reqInfo.2 then (50 : ℚ) else 0
         | none => 0) := by
  unfold bm_tier0
  congr 1
  rcases hcs : coreLookup? cs with _ | info
  · rfl
  · simp only []
    by_cases hb : info.2 = reqInfo.2
    · rw [if_pos hb, if_pos hb]
    · rw [if_neg hb, if_neg hb]
      rw [if_neg]
      intro hpath
      exact hb (core_lookup_path_bucket _ (coreLookup?_mem hcs) _ (coreLookup?_mem hreq) hpath)

/-- Closure of the reachable best-score values under one tier `max`. -/
lemma bm_value_set_closed {req cs : String} {reqInfo : String × String}
    (hreq : coreLookup? req = some reqInfo) (acc : ℚ)
    (hacc : acc = 0 ∨ acc = 50 ∨ acc = 80 ∨ acc = 100) :
    max acc (bm_tier req reqInfo.1 reqInfo.2 cs) = 0 ∨
    max acc (bm_tier req reqInfo.1 reqInfo.2 cs) = 50 ∨
    max acc (bm_tier req reqInfo.1 reqInfo.2 cs) = 80 ∨
    max acc (bm_tier req reqInfo.1 reqInfo.2 cs) = 100 := by
  have htier : bm_tier req reqInfo.1 reqInfo.2 cs = 0 ∨
      bm_tier req reqInfo.1 reqInfo.2 cs = 50 ∨
      bm_tier req reqInfo.1 reqInfo.2 cs = 80 ∨
      bm_tier req reqInfo.1 reqInfo.2 cs = 100 := by
    unfold bm_tier
    split
    · right; right; right; rfl
    · rw [bm_tier0_ne_10 hreq]
      rcases hcs : coreLookup? cs with _ | info <;> simp only []
      · split
        · right; right; left; exact max_eq_left (by norm_num)
        · left; exact max_self 0
      · by_cases hb : info.2 = reqInfo.2
        · rw [if_pos hb]
          split
          · right; right; left; exact max_eq_left (by norm_num)
          · right; left; exact max_eq_right (by norm_num)
        · rw [if_neg hb]
          split
          · right; right; left; exact max_eq_left (by norm_num)
          · left; exact max_self 0
  rcases hacc with h | h | h | h <;> rcases htier with h2 | h2 | h2 | h2 <;>
    rw [h, h2] <;> simp [max_def] <;> norm_num

/-- The best-match score for a core required skill is always one of
0, 50, 80, 100 — never the documented 10. -/
lemma bm_fst_values (required : String) (skills : List String) :
    (best_match_for_required_skill required skills).1 = 0 ∨
    (best_match_for_required_skill required skills).1 = 50 ∨
    (best_match_for_required_skill required skills).1 = 80 ∨
    (best_match_for_required_skill required skills).1 = 100 := by
  unfold best_match_for_required_skill
  by_cases hnc : normalize_skill required ∈ NON_CORE_SET
  · simp only [if_pos hnc]
    split
    · right; right; right; rfl
    · left; rfl
  · simp only [if_neg hnc]
    rcases hreq : coreLookup? (normalize_skill required) with _ | reqInfo
    · left; rfl
    · rw [bm_loop_fst _ _ _ _ 0 "" le_rfl (by norm_num)]
      have : ∀ (l : List String) (acc : ℚ),
          acc = 0 ∨ acc = 50 ∨ acc = 80 ∨ acc = 100 →
          (l.foldl (fun a cs => max a (bm_tier (normalize_skill required) reqInfo.1 reqInfo.2 cs)) acc = 0 ∨
           l.foldl (fun a cs => max a (bm_tier (normalize_skill required) reqInfo.1 reqInfo.2 cs)) acc = 50 ∨
           l.foldl (fun a cs => max a (bm_tier (normalize_skill required) reqInfo.1 reqInfo.2 cs)) acc = 80 ∨
           l.foldl (fun a cs => max a (bm_tier (normalize_skill required) reqInfo.1 reqInfo.2 cs)) acc = 100) := by
        intro l
        induction l with
        | nil => intro acc hacc; exact hacc
        | cons c rest ih =>
          intro acc hacc
          exact ih _ (bm_value_set_closed hreq acc hacc)
      exact this skills 0 (Or.inl rfl)

lemma overall_weights_isSome {i : ℕ} (h1 : 1 ≤ i) (h4 : i ≤ 4) :
    overall_weights i = some ((overall_weights i).getD 0) := by
  interval_cases i <;> rfl

/-- The `overall_score` loop computes the weighted sum over the 1-indexed
priority entries, provided every rank stays within the weight table. -/
lemma overall_loop_eq (sc : Scores) :
    ∀ (priority : List String) (i : ℕ) (acc : ℚ), 1 ≤ i → i + priority.length ≤ 5 →
      overall_loop sc i priority acc =
        some (acc + ((List.enumFrom i priority).map
          (fun q => scores_get sc q.2 * ((overall_weights q.1).getD 0))).sum) := by
  intro priority
  induction priority with
  | nil => intro i acc _ _; simp [overall_loop, List.enumFrom]
  | cons c rest ih =>
    intro i acc h1 h5
    have hi4 : i ≤ 4 := by
      simp only [List.length_cons] at h5
      omega
    have hw := overall_weights_isSome h1 hi4
    simp only [overall_loop]
    rw [hw]
    simp only [List.enumFrom_cons, List.map_cons, List.sum_cons]
    rw [ih (i + 1) _ (by omega) (by simp only [List.length_cons] at h5; omega)]
    rw [add_assoc]

/-- Only the criteria listed in the priority order influence the overall
score. -/
lemma overall_loop_congr (sc sc' : Scores) :
    ∀ (priority : List String) (i : ℕ) (acc : ℚ),
      (∀ c ∈ priority, scores_get sc c = scores_get sc' c) →
      overall_loop sc i priority acc = overall_loop sc' i priority acc := by
  intro priority
  induction priority with
  | nil => intro i acc _; rfl
  | cons c rest ih =>
    intro i acc hc
    simp only [overall_loop]
    rcases hw : overall_weights i with _ | w <;> simp only [hw]
    rw [hc c (List.mem_cons_self c rest)]
    exact ih (i + 1) _ (fun d hd => hc d (List.mem_cons_of_mem c hd))

/-! Facts about the allocation engine's sorted pools, reservation steps and
allocation passes. -/

lemma mem_job_pool {matrix : List MatchRec} {jk : String} {c : MatchRec}
    (h : c ∈ job_pool matrix jk) : c ∈ matrix ∧ c.job_key = jk := by
  unfold job_pool at h
  rw [List.mem_insertionSort] at h
  have h2 := List.mem_filter.1 h
  exact ⟨h2.1, by simpa using h2.2⟩

lemma job_pool_sorted (matrix : List MatchRec) (jk : String) :
    (job_pool matrix jk).Sorted score_ge :=
  List.sorted_insertionSort score_ge _

/-- In a descending-sorted list, the first element satisfying a predicate has
the maximal score among all elements satisfying it. -/
lemma find?_max_of_sorted :
    ∀ {l : List MatchRec}, l.Sorted score_ge → ∀ {q : MatchRec → Bool} {x : MatchRec},
      l.find? q = some x → ∀ y ∈ l, q y = true → y.total_score ≤ x.total_score := by
  intro l
  induction l with
  | nil => intro _ q x hf; simp [List.find?] at hf
  | cons a t ih =>
    intro hs q x hf y hy hqy
    rcases hqa : q a with _ | _
    · rw [List.find?_cons_of_neg _ (by simp [hqa])] at hf
      rcases List.mem_cons.1 hy with rfl | hyt
      · rw [hqa] at hqy; exact absurd hqy (by simp)
      · exact ih hs.of_cons hf y hyt hqy
    · rw [List.find?_cons_of_pos _ hqa] at hf
      injection hf with hf
      subst hf
      rcases List.mem_cons.1 hy with rfl | hyt
      · exact le_refl _
      · exact List.rel_of_sorted_cons hs y hyt

lemma quota_pick_amap_other {pool : List MatchRec} {p : MatchRec → Bool} {jk k : String}
    {st : AllocState} (h : k ≠ jk) : (quota_pick pool p jk st).amap k = st.amap k := by
  unfold quota_pick
  rcases hf : pool.find? (fun c => p c && !(st.aset.contains c.candidate_name)) with _ | b
  · rfl
  · simp only [map_update, if_neg h]

lemma quota_pick_amap_len {pool : List MatchRec} {p : MatchRec → Bool} {jk : String}
    {st : AllocState} :
    ((quota_pick pool p jk st).amap jk).length ≤ (st.amap jk).length + 1 := by
  unfold quota_pick
  rcases hf : pool.find? (fun c => p c && !(st.aset.contains c.candidate_name)) with _ | b
  · exact Nat.le_succ _
  · simp [map_update]

lemma quota_pick_aset_mono {pool : List MatchRec} {p : MatchRec → Bool} {jk : String}
    {st : AllocState} {name : String} (h : name ∈ st.aset) :
    name ∈ (quota_pick pool p jk st).aset := by
  unfold quota_pick
  rcases hf : pool.find? (fun c => p c && !(st.aset.contains c.candidate_name)) with _ | b
  · exact h
  · exact List.mem_cons_of_mem _ h

lemma pass1_job_zero {pool : List MatchRec} {job : Job} {st : AllocState}
    (h : job.offers = 0) : pass1_job pool job st = st := by
  unfold pass1_job
  rw [if_pos h]

lemma pass1_job_amap_other {pool : List MatchRec} {job : Job} {k : String}
    {st : AllocState} (h : k ≠ job.key) : (pass1_job pool job st).amap k = st.amap k := by
  unfold pass1_job
  split
  · rfl
  · rw [quota_pick_amap_other h, quota_pick_amap_other h]

lemma pass1_job_amap_len {pool : List MatchRec} {job : Job} {st : AllocState} :
    ((pass1_job pool job st).amap job.key).length ≤ (st.amap job.key).length + 2 := by
  unfold pass1_job
  split
  · exact Nat.le_add_right _ 2
  · calc ((quota_pick pool (fun c => c.is_diversity) job.key
            (quota_pick pool (fun c => c.is_female) job.key st)).amap job.key).length
        ≤ ((quota_pick pool (fun c => c.is_female) job.key st).amap job.key).length + 1 :=
          quota_pick_amap_len
      _ ≤ ((st.amap job.key).length + 1) + 1 := Nat.add_le_add_right quota_pick_amap_len 1
      _ = (st.amap job.key).length + 2 := rfl

lemma pass1_job_aset_mono {pool : List MatchRec} {job : Job} {st : AllocState}
    {name : String} (h : name ∈ st.aset) : name ∈ (pass1_job pool job st).aset := by
  unfold pass1_job
  split
  · exact h
  · exact quota_pick_aset_mono (quota_pick_aset_mono h)

/-- The inner fold of Pass 1 (over any tail of the job list). -/
def pass1_go (matrix : List MatchRec) (l : List Job) (st : AllocState) : AllocState :=
  l.foldl (fun s j => pass1_job (job_pool matrix j.key) j s) st

lemma pass1_eq_go (matrix : List MatchRec) (jobs : List Job) :
    pass1 matrix jobs = pass1_go matrix jobs init_state := rfl

lemma pass1_go_amap_untouched (matrix : List MatchRec) :
    ∀ (l : List Job) (st : AllocState) (k : String), k ∉ l.map Job.key →
      (pass1_go matrix l st).amap k = st.amap k := by
  intro l
  induction l with
  | nil => intro st k _; rfl
  | cons j t ih =>
    intro st k hk
    simp only [List.map_cons, List.mem_cons, not_or] at hk
    show (pass1_go matrix t (pass1_job (job_pool matrix j.key) j st)).amap k = st.amap k
    rw [ih _ k hk.2, pass1_job_amap_other hk.1]

lemma pass1_go_aset_mono (matrix : List MatchRec) :
    ∀ (l : List Job) (st : AllocState) (name : String), name ∈ st.aset →
      name ∈ (pass1_go matrix l st).aset := by
  intro l
  induction l with
  | nil => intro st name h; exact h
  | cons j t ih =>
    intro st name h
    exact ih _ name (pass1_job_aset_mono h)

lemma pass1_go_amap_len (matrix : List MatchRec) :
    ∀ (l : List Job) (st : AllocState) (job : Job), job ∈ l → (l.map Job.key).Nodup →
      ((pass1_go matrix l st).amap job.key).length ≤ (st.amap job.key).length + 2 := by
  intro l
  induction l with
  | nil => intro st job h; exact absurd h (List.not_mem_nil job)
  | cons j t ih =>
    intro st job hmem hnd
    simp only [List.map_cons, List.nodup_cons] at hnd
    rcases List.mem_cons.1 hmem with rfl | hjt
    · show ((pass1_go matrix t (pass1_job (job_pool matrix job.key) job st)).amap job.key).length ≤ _
      rw [pass1_go_amap_untouched matrix t _ job.key hnd.1]
      exact pass1_job_amap_len
    · show ((pass1_go matrix t (pass1_job (job_pool matrix j.key) j st)).amap job.key).length ≤ _
      have hne : job.key ≠ j.key := by
        intro heq
        exact hnd.1 (heq ▸ List.mem_map_of_mem Job.key hjt)
      calc ((pass1_go matrix t (pass1_job (job_pool matrix j.key) j st)).amap job.key).length
          ≤ ((pass1_job (job_pool matrix j.key) j st).amap job.key).length + 2 :=
            ih _ job hjt hnd.2
        _ = (st.amap job.key).length + 2 := by rw [pass1_job_amap_other hne]

lemma pass1_go_amap_zero (matrix : List MatchRec) :
    ∀ (l : List Job) (st : AllocState) (job : Job), job ∈ l → (l.map Job.key).Nodup →
      job.offers = 0 →
      (pass1_go matrix l st).amap job.key = st.amap job.key := by
  intro l
  induction l with
  | nil => intro st job h; exact absurd h (List.not_mem_nil job)
  | cons j t ih =>
    intro st job hmem hnd hz
    simp only [List.map_cons, List.nodup_cons] at hnd
    rcases List.mem_cons.1 hmem with rfl | hjt
    · show (pass1_go matrix t (pass1_job (job_pool matrix job.key) job st)).amap job.key = _
      rw [pass1_go_amap_untouched matrix t _ job.key hnd.1, pass1_job_zero hz]
    · have hne : job.key ≠ j.key := by
        intro heq
        exact hnd.1 (heq ▸ List.mem_map_of_mem Job.key hjt)
      show (pass1_go matrix t (pass1_job (job_pool matrix j.key) j st)).amap job.key = _
      rw [ih _ job hjt hnd.2 hz, pass1_job_amap_other hne]

lemma pass2_step_amap_len {limits : String → ℕ} {st : AllocState} {m : MatchRec}
    (k : String) :
    ((pass2_step limits st m).amap k).length ≤ max ((st.amap k).length) (limits k) := by
  unfold pass2_step
  split
  · rename_i hcond
    simp only [Bool.and_eq_true, decide_eq_true_eq] at hcond
    by_cases hk : k = m.job_key
    · subst hk
      simp only [map_update, eq_self_iff_true, if_true, List.length_append,
        List.length_singleton]
      exact le_max_of_le_right (Nat.succ_le_of_lt hcond.2)
    · simp only [map_update, if_neg hk]
      exact le_max_left _ _
  · exact le_max_left _ _

lemma pass2_go_amap_len (limits : String → ℕ) :
    ∀ (pool : List MatchRec) (st : AllocState) (k : String),
      ((pool.foldl (pass2_step limits) st).amap k).length ≤
        max ((st.amap k).length) (limits k) := by
  intro pool
  induction pool with
  | nil => intro st k; exact le_max_left _ _
  | cons m t ih =>
    intro st k
    calc ((t.foldl (pass2_step limits) (pass2_step limits st m)).amap k).length
        ≤ max (((pass2_step limits st m).amap k).length) (limits k) := ih _ k
      _ ≤ max (max ((st.amap k).length) (limits k)) (limits k) :=
          max_le_max (pass2_step_amap_len k) le_rfl
      _ = max ((st.amap k).length) (limits k) := by rw [max_assoc, max_self]

lemma pass2_step_amap_zero {limits : String → ℕ} {st : AllocState} {m : MatchRec}
    {k : String} (hlim : limits k = 0) (h : st.amap k = []) :
    (pass2_step limits st m).amap k = [] := by
  unfold pass2_step
  split
  · rename_i hcond
    simp only [Bool.and_eq_true, decide_eq_true_eq] at hcond
    by_cases hk : k = m.job_key
    · subst hk
      rw [h, hlim] at hcond
      exact absurd hcond.2 (by simp)
    · simpa [map_update, if_neg hk] using h
  · exact h

lemma pass2_go_amap_zero (limits : String → ℕ) :
    ∀ (pool : List MatchRec) (st : AllocState) (k : String), limits k = 0 →
      st.amap k = [] → ((pool.foldl (pass2_step limits) st).amap k) = [] := by
  intro pool
  induction pool with
  | nil => intro st k _ h; exact h
  | cons m t ih =>
    intro st k hlim h
    exact ih _ k hlim (pass2_step_amap_zero hlim h)

/-- With pairwise-distinct job keys, the Pass-2 offer limit of a selected
job's key is that job's capacity. -/
lemma job_offer_limits_eq :
    ∀ (jobs : List Job) (job : Job), job ∈ jobs → (jobs.map Job.key).Nodup →
      job_offer_limits jobs job.key = job.offers := by
  intro jobs
  induction jobs with
  | nil => intro job h; exact absurd h (List.not_mem_nil job)
  | cons j t ih =>
    intro job hmem hnd
    simp only [List.map_cons, List.nodup_cons] at hnd
    rcases List.mem_cons.1 hmem with rfl | hjt
    · have hfilt : t.filter (fun x => x.key == job.key) = [] := by
        apply List.filter_eq_nil_iff.2
        intro x hx hbeq
        exact hnd.1 (by
          have : x.key = job.key := by simpa using hbeq
          exact this ▸ List.mem_map_of_mem Job.key hx)
      unfold job_offer_limits
      simp [List.filter_cons, hfilt]
    · have hne : j.key ≠ job.key := by
        intro heq
        exact hnd.1 (heq.symm ▸ List.mem_map_of_mem Job.key hjt)
      have h1 := ih job hjt hnd.2
      unfold job_offer_limits at h1 ⊢
      simp only [List.filter_cons]
      rw [if_neg (by simpa using hne)]
      exact h1

/-- The per-position capacity bounds of the final allocation state. -/
lemma alloc_run_amap_bound (matrix : List MatchRec) (jobs : List Job) (job : Job)
    (hmem : job ∈ jobs) (hnd : (jobs.map Job.key).Nodup) :
    ((pass1 matrix jobs).amap job.key).length ≤ 2
    ∧ ((alloc_run matrix jobs).amap job.key).length ≤ max job.offers 2
    ∧ (job.offers = 0 → (alloc_run matrix jobs).amap job.key = []) := by
  have h1 : ((pass1 matrix jobs).amap job.key).length ≤ 2 := by
    rw [pass1_eq_go]
    simpa using pass1_go_amap_len matrix jobs init_state job hmem hnd
  refine ⟨h1, ?_, ?_⟩
  · have h2 := pass2_go_amap_len (job_offer_limits jobs) (pass2_pool matrix (pass1 matrix jobs))
      (pass1 matrix jobs) job.key
    rw [job_offer_limits_eq jobs job hmem hnd] at h2
    calc ((alloc_run matrix jobs).amap job.key).length
        ≤ max (((pass1 matrix jobs).amap job.key).length) job.offers := h2
      _ ≤ max 2 job.offers := max_le_max h1 le_rfl
      _ = max job.offers 2 := max_comm _ _
  · intro hz
    have hp1 : (pass1 matrix jobs).amap job.key = [] := by
      rw [pass1_eq_go]
      exact pass1_go_amap_zero matrix jobs init_state job hmem hnd hz
    have hlim : job_offer_limits jobs job.key = 0 := by
      rw [job_offer_limits_eq jobs job hmem hnd, hz]
    exact pass2_go_amap_zero (job_offer_limits jobs) _ _ job.key hlim hp1

/-- Every entry of the allotment map sits under its own job key and comes from
the score matrix. -/
def MapOK (matrix : List MatchRec) (st : AllocState) : Prop :=
  ∀ k m, m ∈ st.amap k → m.job_key = k ∧ m ∈ matrix

lemma mapok_init (matrix : List MatchRec) : MapOK matrix init_state :=
  fun _ m h => absurd h (List.not_mem_nil m)

lemma mapok_quota {matrix pool : List MatchRec} {p : MatchRec → Bool} {jk : String}
    {st : AllocState} (hpool : ∀ c ∈ pool, c ∈ matrix ∧ c.job_key = jk)
    (h : MapOK matrix st) : MapOK matrix (quota_pick pool p jk st) := by
  intro k m hm
  unfold quota_pick at hm
  rcases hf : pool.find? (fun c => p c && !(st.aset.contains c.candidate_name)) with _ | b <;>
    rw [hf] at hm
  · exact h k m hm
  · simp only [map_update] at hm
    by_cases hk : k = jk
    · rw [if_pos hk] at hm
      subst hk
      rcases List.mem_append.1 hm with hm2 | hm2
      · exact h k m hm2
      · have hb := hpool b (List.mem_of_find?_eq_some hf)
        rw [List.mem_singleton.1 hm2]
        exact ⟨hb.2, hb.1⟩
    · rw [if_neg hk] at hm
      exact h k m hm

lemma mapok_pass1_job {matrix : List MatchRec} {job : Job} {st : AllocState}
    (h : MapOK matrix st) : MapOK matrix (pass1_job (job_pool matrix job.key) job st) := by
  unfold pass1_job
  split
  · exact h
  · have hpool : ∀ c ∈ job_pool matrix job.key, c ∈ matrix ∧ c.job_key = job.key :=
      fun c hc => mem_job_pool hc
    exact mapok_quota hpool (mapok_quota hpool h)

lemma mapok_pass1_go {matrix : List MatchRec} :
    ∀ (l : List Job) (st : AllocState), MapOK matrix st →
      MapOK matrix (pass1_go matrix l st) := by
  intro l
  induction l with
  | nil => intro st h; exact h
  | cons j t ih => intro st h; exact ih _ (mapok_pass1_job h)

lemma mapok_pass2_step {matrix : List MatchRec} {limits : String → ℕ} {st : AllocState}
    {m : MatchRec} (hm : m ∈ matrix) (h : MapOK matrix st) :
    MapOK matrix (pass2_step limits st m) := by
  intro k x hx
  unfold pass2_step at hx
  split at hx
  · simp only [map_update] at hx
    by_cases hk : k = m.job_key
    · rw [if_pos hk] at hx
      subst hk
      rcases List.mem_append.1 hx with hx2 | hx2
      · exact h _ x hx2
      · rw [List.mem_singleton.1 hx2]
        exact ⟨rfl, hm⟩
    · rw [if_neg hk] at hx
      exact h k x hx
  · exact h k x hx

lemma mapok_pass2_go {matrix : List MatchRec} {limits : String → ℕ} :
    ∀ (pool : List MatchRec) (st : AllocState), (∀ m ∈ pool, m ∈ matrix) →
      MapOK matrix st → MapOK matrix (pool.foldl (pass2_step limits) st) := by
  intro pool
  induction pool with
  | nil => intro st _ h; exact h
  | cons m t ih =>
    intro st hsub h
    exact ih _ (fun x hx => hsub x (List.mem_cons_of_mem m hx))
      (mapok_pass2_step (hsub m (List.mem_cons_self m t)) h)

lemma mapok_alloc_run (matrix : List MatchRec) (jobs : List Job) :
    MapOK matrix (alloc_run matrix jobs) := by
  unfold alloc_run pass2
  apply mapok_pass2_go
  · intro m hm
    unfold pass2_pool at hm
    rw [List.mem_insertionSort] at hm
    exact (List.mem_filter.1 hm).1
  · rw [pass1_eq_go]
    exact mapok_pass1_go jobs init_state (mapok_init matrix)

lemma build_matrix_go_mem :
    ∀ {ps : List (Candidate × Job)} {matrix : List MatchRec},
      build_matrix_go ps = some matrix →
      ∀ m ∈ matrix, ∃ p ∈ ps, make_match p.1 p.2 = some m := by
  intro ps
  induction ps with
  | nil =>
    intro matrix h m hm
    injection h with h
    rw [← h] at hm
    exact absurd hm (List.not_mem_nil m)
  | cons p rest ih =>
    intro matrix h m hm
    unfold build_matrix_go at h
    rcases hmk : make_match p.1 p.2 with _ | m0 <;> rw [hmk] at h
    · exact absurd h (by simp)
    · rcases hr : build_matrix_go rest with _ | t <;> rw [hr] at h
      · exact absurd h (by simp)
      · simp only [Option.map_some'] at h
        injection h with h
        rw [← h] at hm
        rcases List.mem_cons.1 hm with rfl | hmt
        · exact ⟨p, List.mem_cons_self p rest, hmk⟩
        · rcases ih hr m hmt with ⟨q, hq, hq2⟩
          exact ⟨q, List.mem_cons_of_mem _ hq, hq2⟩

lemma make_match_fields {row : Candidate} {job : Job} {m : MatchRec}
    (h : make_match row job = some m) :
    m.candidate_name = row.name ∧ m.row_data = row ∧ m.job_key = job.key ∧ m.post = job.post := by
  unfold make_match at h
  rcases hc : calculate_all_scores_for_job row job with _ | s <;> rw [hc] at h
  · exact absurd h (by simp)
  · simp only [Option.map_some'] at h
    injection h with h
    rw [← h]
    exact ⟨rfl, rfl, rfl, rfl⟩

lemma build_matrix_mem {cands : List Candidate} {jobs : List Job} {matrix : List MatchRec}
    (h : build_matrix cands jobs = some matrix) :
    ∀ m ∈ matrix, ∃ row ∈ cands, ∃ jb ∈ jobs,
      m.candidate_name = row.name ∧ m.job_key = jb.key ∧ m.post = jb.post := by
  intro m hm
  rcases build_matrix_go_mem h m hm with ⟨p, hp, hmk⟩
  rcases List.mem_flatMap.1 hp with ⟨row, hrow, hp2⟩
  rcases List.mem_map.1 hp2 with ⟨jb, hjb, hpe⟩
  rw [← hpe] at hmk
  have hf := make_match_fields hmk
  exact ⟨row, hrow, jb, hjb, hf.1, hf.2.2.1, hf.2.2.2⟩

lemma lookup_mem {st : AllocState} {jobs : List Job} {name : String} {m : MatchRec}
    (h : candidate_allotment_lookup st jobs name = some m) :
    (∃ k, m ∈ st.amap k) ∧ m.candidate_name = name := by
  unfold candidate_allotment_lookup at h
  rcases List.mem_getLast?_eq_getLast (Option.mem_def.2 h) with ⟨hne, heq⟩
  have hmem := heq ▸ List.getLast_mem hne
  have h2 := List.mem_filter.1 hmem
  refine ⟨?_, by simpa using h2.2⟩
  rcases List.mem_flatMap.1 (by simpa [allot_entries] using h2.1) with ⟨k, _, hk2⟩
  exact ⟨k, hk2⟩

lemma nodup_length_le {l₁ l₂ : List String} (hnd : l₁.Nodup)
    (hsub : ∀ x ∈ l₁, x ∈ l₂) : l₁.length ≤ l₂.length := by
  calc l₁.length = l₁.toFinset.card := (List.toFinset_card_of_nodup hnd).symm
    _ ≤ l₂.toFinset.card :=
        Finset.card_le_card (fun x hx => List.mem_toFinset.2 (hsub x (List.mem_toFinset.1 hx)))
    _ ≤ l₂.length := l₂.toFinset_card_le

lemma generate_eq {cands : List Candidate} {jobs : List Job} {matrix : List MatchRec}
    {out : List OutRec} (hb : build_matrix cands jobs = some matrix)
    (hout : generate_smart_allotment cands jobs = some out) :
    out = final_sort (cands.map (fun row =>
      make_out_rec row (candidate_allotment_lookup (alloc_run matrix jobs) jobs row.name))) := by
  unfold generate_smart_allotment at hout
  rw [hb] at hout
  simp only [Option.map_some'] at hout
  injection hout with hout
  exact hout.symm

lemma out_name (row : Candidate) (o : Option MatchRec) :
    (make_out_rec row o).name = row.name := by
  rcases o with _ | m <;> rfl

lemma out_status_cases (row : Candidate) (o : Option MatchRec) :
    (make_out_rec row o).status = "Allotted" ∨ (make_out_rec row o).status = "Waitlisted" := by
  rcases o with _ | m
  · right; rfl
  · left; rfl

lemma waitlisted_ne_allotted : ("Waitlisted" : String) ≠ "Allotted" := by decide

/-- What one successful quota reservation does to the state. -/
lemma quota_pick_found {pool : List MatchRec} {p : MatchRec → Bool} {jk : String}
    {st : AllocState} {b : MatchRec}
    (hf : pool.find? (fun c => p c && !(st.aset.contains c.candidate_name)) = some b) :
    (quota_pick pool p jk st).amap jk = st.amap jk ++ [b]
    ∧ (quota_pick pool p jk st).aset = b.candidate_name :: st.aset
    ∧ p b = true ∧ st.aset.contains b.candidate_name = false := by
  have hpred := List.find?_some hf
  simp only [Bool.and_eq_true, Bool.not_eq_true'] at hpred
  unfold quota_pick
  rw [hf]
  exact ⟨by simp [map_update], rfl, hpred.1, hpred.2⟩

lemma filter_of_map {α β : Type} (f : α → β) (p : β → Bool) :
    ∀ l : List α, (l.map f).filter p = (l.filter (fun a => p (f a))).map f := by
  intro l
  induction l with
  | nil => rfl
  | cons a t ih =>
    rcases h : p (f a) with _ | _ <;>
      simp only [List.map_cons, List.filter_cons, h, ih, if_true, if_false, Bool.false_eq_true,
        List.map_cons]

/-- Every Allotted output record naming a given position corresponds to an
entry in that position's allotment list; with pairwise-distinct candidate
names and position titles, there are no more such records than entries. -/
lemma allotted_filter_le {cands : List Candidate} {jobs : List Job} {matrix : List MatchRec}
    (hb : build_matrix cands jobs = some matrix) {job : Job} (hjob : job ∈ jobs)
    (hnames : (cands.map Candidate.name).Nodup) (hposts : (jobs.map Job.post).Nodup)
    (hkeys : (jobs.map Job.key).Nodup) :
    ((cands.map (fun row =>
        make_out_rec row (candidate_allotment_lookup (alloc_run matrix jobs) jobs row.name))).filter
          (fun r => r.status == "Allotted" && r.allotted_job == job.post)).length ≤
      ((alloc_run matrix jobs).amap job.key).length := by
  rw [filter_of_map, List.length_map]
  have hlen : (cands.filter (fun row =>
      (fun r => r.status == "Allotted" && r.allotted_job == job.post)
        (make_out_rec row (candidate_allotment_lookup (alloc_run matrix jobs) jobs row.name)))).length
      = ((cands.filter (fun row =>
      (fun r => r.status == "Allotted" && r.allotted_job == job.post)
        (make_out_rec row (candidate_allotment_lookup (alloc_run matrix jobs) jobs
          row.name)))).map Candidate.name).length := (List.length_map _ _).symm
  rw [hlen, show ((alloc_run matrix jobs).amap job.key).length =
    (((alloc_run matrix jobs).amap job.key).map MatchRec.candidate_name).length from
      (List.length_map _ _).symm]
  apply nodup_length_le
  · exact List.Nodup.sublist (List.Sublist.map Candidate.name (List.filter_sublist cands)) hnames
  · intro n hn
    rcases List.mem_map.1 hn with ⟨row, hrowmem, rfl⟩
    have hq := List.of_mem_filter hrowmem
    rcases hlk : candidate_allotment_lookup (alloc_run matrix jobs) jobs row.name with _ | m
    · rw [hlk] at hq
      have hst : (make_out_rec row none).status = "Waitlisted" := rfl
      simp only [Bool.and_eq_true, beq_iff_eq, hst] at hq
      exact absurd hq.1 waitlisted_ne_allotted
    · rw [hlk] at hq
      have hst : (make_out_rec row (some m)).status = "Allotted" := rfl
      have hjb : (make_out_rec row (some m)).allotted_job = m.post := rfl
      simp only [Bool.and_eq_true, beq_iff_eq, hst, hjb] at hq
      have hpost : m.post = job.post := hq.2
      rcases lookup_mem hlk with ⟨⟨k, hk⟩, hmname⟩
      rcases mapok_alloc_run matrix jobs k m hk with ⟨hkey, hmat⟩
      rcases build_matrix_mem hb m hmat with ⟨row', _, jb, hjbmem, _, hjk, hjpost⟩
      have hjbeq : jb = job :=
        List.inj_on_of_nodup_map hposts hjbmem hjob (by rw [← hjpost, hpost])
      have hkk : k = job.key := by rw [← hkey, hjk, hjbeq]
      rw [← hmname]
      exact List.mem_map_of_mem MatchRec.candidate_name (hkk ▸ hk)

end AuxLemmas

section Claims

attribute [local semireducible] Rat.mul Rat.add Rat.sub Rat.inv

/-- C8: for every required skill and candidate skill list, adding a skill
exactly equal to the required skill (at any position) never decreases the
best-match score returned for that required skill. -/
theorem C8_theorem (required : String) (l1 l2 : List String) :
    (best_match_for_required_skill required (l1 ++ l2)).1 ≤
      (best_match_for_required_skill required (l1 ++ required :: l2)).1 :=
  bm_mono_insert required required l1 l2

/-- C3 (code bug): the code's own comment and in-app documentation promise a
10-point tier for a candidate skill in the same broad domain but a different
subgroup, but on the concrete pair required `PYTHON` (path
`engineering/computer_eng`) against candidate `IOT` (path
`engineering/electrical_eng`) the function returns 0; in fact the 10-point
tier is unreachable for every input, because the comparison uses the full
`domain/subgroup` path. -/
theorem C3_theorem :
    (coreLookup? "PYTHON" = some ("engineering/computer_eng", "computer_eng")
      ∧ coreLookup? "IOT" = some ("engineering/electrical_eng", "electrical_eng")
      ∧ best_match_for_required_skill "PYTHON" ["IOT"] = (0, ""))
    ∧ ∀ (required : String) (skills : List String),
        (best_match_for_required_skill required skills).1 ≠ 10 := by
  constructor
  · exact ⟨by decide, by decide, by decide⟩
  · intro required skills h10
    rcases bm_fst_values required skills with h | h | h | h <;> rw [h10] at h <;> norm_num at h

/-- C2 (corrected): for a non-empty required-skill list the aggregate skill
score is the `0.8 · avgCore + 0.2 · avgNonCore` combination only when both
partitions are non-empty; when one partition is empty the score is exactly
the other partition's average (the claimed "empty partition averages to 100"
weighting is not applied). -/
theorem C2_theorem (required candidate : List String) (h : required ≠ []) :
    (spec_core_req required = [] →
      compute_skills_percent required candidate (8/10) = spec_avg_non_core required candidate)
    ∧ (spec_core_req required ≠ [] → spec_non_core_req required = [] →
      compute_skills_percent required candidate (8/10) = spec_avg_core required candidate)
    ∧ (spec_core_req required ≠ [] → spec_non_core_req required ≠ [] →
      compute_skills_percent required candidate (8/10) =
        (8/10) * spec_avg_core required candidate
          + (1 - 8/10) * spec_avg_non_core required candidate) := by
  have hrn : required.map normalize_skill ≠ [] := by
    intro hx
    exact h (List.map_eq_nil_iff.1 hx)
  have hperm := List.filter_append_perm (fun s => skill_is_core s) (required.map normalize_skill)
  simp only [spec_core_req, spec_non_core_req, spec_avg_core, spec_avg_non_core,
    compute_skills_percent, if_neg h]
  refine ⟨?_, ?_, ?_⟩
  · intro h1
    have hnc : (required.map normalize_skill).filter (fun s => !(skill_is_core s)) ≠ [] := by
      intro hx
      apply hrn
      have hp := hperm
      rw [h1, hx] at hp
      exact hp.symm.eq_nil
    rw [if_pos h1, if_pos (fun hx => hnc (List.map_eq_nil_iff.1 hx))]
  · intro h1 h2
    rw [if_neg h1, if_pos h2, if_pos (fun hx => h1 (List.map_eq_nil_iff.1 hx))]
  · intro h1 h2
    rw [if_neg h1, if_neg h2, if_pos (fun hx => h1 (List.map_eq_nil_iff.1 hx)),
      if_pos (fun hx => h2 (List.map_eq_nil_iff.1 hx))]

/-- C2 counterexample: for the required list `["COMMUNICATION"]` (a single
non-core skill) and an empty candidate skill list the code returns 0, while
the claimed formula — core partition empty, its average "taken to be 100" —
yields `0.8 · 100 + 0.2 · 0 = 80`. -/
theorem C2_counterexample :
    compute_skills_percent ["COMMUNICATION"] [] (8/10) = 0
    ∧ spec_core_req ["COMMUNICATION"] = []
    ∧ (8/10 : ℚ) * 100 + (1 - 8/10) * spec_avg_non_core ["COMMUNICATION"] [] = 80
    ∧ (0 : ℚ) ≠ 80 := by
  refine ⟨by decide, by decide, by decide, by norm_num⟩

/-- C2 witness: a concrete instance of the amended claim with both partitions
non-empty. -/
theorem C2_witness :
    compute_skills_percent c2w_req c2w_cand (8/10) =
      (8/10) * spec_avg_core c2w_req c2w_cand
        + (1 - 8/10) * spec_avg_non_core c2w_req c2w_cand := by
  have h := C2_theorem c2w_req c2w_cand (by decide)
  exact h.2.2 (by decide) (by decide)

/-- C5 (corrected): the overall score is the sum of `weight[rank] ·
criterionScore` over the 1-indexed priority entries with the fixed table
`{1: 0.4, 2: 0.3, 3: 0.2, 4: 0.1}`; criteria absent from the priority order
contribute nothing; and the unweighted-mean fallback for a missing/empty
priority order exists only in the Ranking Service (`compute_ranking`) — the
allocation scorer applies the weighted sum unconditionally. -/
theorem C5_theorem (sc : Scores) (priority : List String) (row : Candidate)
    (internship : Job) (hlen : priority.length ≤ 4) :
    overall_score sc priority =
      some (((List.enumFrom 1 priority).map
        (fun q => scores_get sc q.2 * ((overall_weights q.1).getD 0))).sum)
    ∧ (∀ sc' : Scores, (∀ c ∈ priority, scores_get sc c = scores_get sc' c) →
        overall_score sc priority = overall_score sc' priority)
    ∧ (internship.priority = [] →
        ranking_total row internship =
          some ((if past_participation_yes row then (8/10 : ℚ) else 1) *
            (((ranking_scores row internship).skills
              + (ranking_scores row internship).education
              + (ranking_scores row internship).location
              + (ranking_scores row internship).interest) / 4))) := by
  refine ⟨?_, ?_, ?_⟩
  · have h := overall_loop_eq sc priority 1 0 le_rfl (by omega)
    unfold overall_score
    rw [h, zero_add]
  · intro sc' hcong
    unfold overall_score
    exact overall_loop_congr sc sc' priority 1 0 hcong
  · intro hp
    simp only [ranking_total, hp, ne_eq, not_true_eq_false, if_false, Option.map_some']
    congr 1
    split
    · rw [mul_comm]
    · rw [one_mul]

/-- C5 counterexample: the allocation scorer `calculate_all_scores_for_job`
has no mean fallback — on a position supplying no priority order it returns
overall 0 even though the four criterion scores average to 75. -/
theorem C5_counterexample :
    c5_job.priority = []
    ∧ calculate_all_scores_for_job c5_row c5_job =
        some { skills := 100, education := 100, location := 100, interest := 0, total := 0 }
    ∧ ((100 : ℚ) + 100 + 100 + 0) / 4 ≠ 0 := by
  refine ⟨rfl, by decide, by norm_num⟩

/-- C5 witness: the weighted-sum formula at a concrete score vector and the
standard four-criterion priority order. -/
theorem C5_witness :
    overall_score c5w_scores c5w_priority = some (731/10) := by
  have h := C5_theorem c5w_scores c5w_priority c5_row c5_job (by decide)
  rw [h.1]
  decide

/-- C9 (corrected): when the selected positions have pairwise-distinct keys,
Pass 1 reserves at most two candidates per position, and after the
capacity-guarded Pass 2 every position with capacity at least 1 holds at most
`max capacity 2` candidates; without that proviso the bound fails (see the
counterexample). -/
theorem C9_theorem (matrix : List MatchRec) (jobs : List Job) (job : Job)
    (hmem : job ∈ jobs) (hnd : (jobs.map Job.key).Nodup) (hcap : 1 ≤ job.offers) :
    ((pass1 matrix jobs).amap job.key).length ≤ 2
    ∧ ((alloc_run matrix jobs).amap job.key).length ≤ max job.offers 2 := by
  have h := alloc_run_amap_bound matrix jobs job hmem hnd
  exact ⟨h.1, h.2.1⟩

/-- C9 counterexample: with the same capacity-3 position selected twice
(duplicate key), Pass 1 runs its two quota reservations once per list entry
into the shared map slot, so the position ends the run holding 4 candidates,
above the claimed `max(capacity, 2) = 3`. -/
theorem C9_counterexample :
    build_matrix c9x_cands c9x_jobs = some c9x_matrix
    ∧ c9x_job.offers = 3
    ∧ ((alloc_run c9x_matrix c9x_jobs).amap c9x_job.key).length = 4
    ∧ ¬(((alloc_run c9x_matrix c9x_jobs).amap c9x_job.key).length ≤ max c9x_job.offers 2) := by
  refine ⟨by decide, rfl, by decide, by decide⟩

/-- C9 witness at a concrete position and matrix. -/
theorem C9_witness :
    ((pass1 [] [c5_job]).amap c5_job.key).length ≤ 2
    ∧ ((alloc_run [] [c5_job]).amap c5_job.key).length ≤ max c5_job.offers 2 := by
  have h := C9_theorem c9w_matrix c9w_jobs c5_job (by decide) (by decide) (by decide)
  exact h

/-- C4: every allocation run emits exactly one record per candidate row, each
either Allotted or Waitlisted, Allotted plus Waitlisted records together
count the candidates, and all Allotted records bearing one name carry the
same position. -/
theorem C4_theorem (cands : List Candidate) (jobs : List Job) (out : List OutRec)
    (hout : generate_smart_allotment cands jobs = some out) :
    out.length = cands.length
    ∧ (∀ r ∈ out, r.status = "Allotted" ∨ r.status = "Waitlisted")
    ∧ (out.filter (fun r => r.status == "Allotted")).length
        + (out.filter (fun r => r.status == "Waitlisted")).length = cands.length
    ∧ (∀ r1 ∈ out, ∀ r2 ∈ out, r1.name = r2.name →
        r1.status = "Allotted" → r2.status = "Allotted" →
        r1.allotted_job = r2.allotted_job) := by
  rcases hb : build_matrix cands jobs with _ | matrix
  · unfold generate_smart_allotment at hout
    rw [hb] at hout
    exact absurd hout (by simp)
  have hout0 := generate_eq hb hout
  have hperm : List.Perm out (cands.map (fun row =>
      make_out_rec row (candidate_allotment_lookup (alloc_run matrix jobs) jobs row.name))) := by
    rw [hout0]
    exact List.perm_insertionSort out_le _
  refine ⟨?_, ?_, ?_, ?_⟩
  · rw [hperm.length_eq, List.length_map]
  · intro r hr
    rcases List.mem_map.1 (hperm.subset hr) with ⟨row, _, hrow⟩
    rw [← hrow]
    exact out_status_cases row _
  · have e1 := (hperm.filter (fun r => r.status == "Allotted")).length_eq
    have e2 := (hperm.filter (fun r => r.status == "Waitlisted")).length_eq
    rw [e1, e2]
    set out0 := cands.map (fun row =>
      make_out_rec row (candidate_allotment_lookup (alloc_run matrix jobs) jobs row.name))
      with hdef0
    have hw : out0.filter (fun r => r.status == "Waitlisted") =
        out0.filter (fun r => !(r.status == "Allotted")) := by
      apply List.filter_congr
      intro r hr
      rcases List.mem_map.1 hr with ⟨row, _, hrow⟩
      rcases out_status_cases row (candidate_allotment_lookup (alloc_run matrix jobs) jobs
          row.name) with hs | hs <;> rw [hrow] at hs <;> rw [hs] <;> decide
    rw [hw]
    have hpart := (List.filter_append_perm (fun r => r.status == "Allotted") out0).length_eq
    rw [List.length_append] at hpart
    rw [hpart, hdef0, List.length_map]
  · intro r1 h1 r2 h2 hname hs1 hs2
    rcases List.mem_map.1 (hperm.subset h1) with ⟨row1, _, hr1⟩
    rcases List.mem_map.1 (hperm.subset h2) with ⟨row2, _, hr2⟩
    have hn1 : r1.name = row1.name := by rw [← hr1]; exact out_name row1 _
    have hn2 : r2.name = row2.name := by rw [← hr2]; exact out_name row2 _
    have hrownames : row1.name = row2.name := by rw [← hn1, ← hn2, hname]
    rcases hl1 : candidate_allotment_lookup (alloc_run matrix jobs) jobs row1.name with _ | m1
    · rw [← hr1, hl1] at hs1
      exact absurd hs1 waitlisted_ne_allotted
    · rcases hl2 : candidate_allotment_lookup (alloc_run matrix jobs) jobs row2.name with _ | m2
      · rw [← hr2, hl2] at hs2
        exact absurd hs2 waitlisted_ne_allotted
      · have hm12 : m1 = m2 := by
          rw [hrownames] at hl1
          rw [hl1] at hl2
          injection hl2
        rw [← hr1, hl1, ← hr2, hl2, hm12]
        rfl

/-- C4 witness: a concrete one-candidate run. -/
theorem C4_witness :
    (generate_smart_allotment c4w_cands c4w_jobs).map List.length = some 1 := by
  rcases hout : generate_smart_allotment c4w_cands c4w_jobs with _ | out
  · have hs : (generate_smart_allotment c4w_cands c4w_jobs).isSome = true := by decide
    rw [hout] at hs
    exact absurd hs (by simp)
  · have h := C4_theorem c4w_cands c4w_jobs out hout
    simp [h.1, c4w_cands]

/-- C1 (corrected): with pairwise-distinct candidate names, job keys and post
titles, the number of Allotted output records naming a position is at most
`max capacity 2` — and at most the capacity whenever the capacity is not 1
(a capacity-1 position can be given 2 candidates by the quota pass). -/
theorem C1_theorem (cands : List Candidate) (jobs : List Job) (matrix : List MatchRec)
    (out : List OutRec) (job : Job)
    (hb : build_matrix cands jobs = some matrix)
    (hout : generate_smart_allotment cands jobs = some out)
    (hjob : job ∈ jobs)
    (hnames : (cands.map Candidate.name).Nodup)
    (hkeys : (jobs.map Job.key).Nodup)
    (hposts : (jobs.map Job.post).Nodup) :
    (out.filter (fun r => r.status == "Allotted" && r.allotted_job == job.post)).length ≤
      max job.offers 2
    ∧ (job.offers ≠ 1 →
        (out.filter (fun r => r.status == "Allotted" && r.allotted_job == job.post)).length ≤
          job.offers) := by
  have hout0 := generate_eq hb hout
  have hperm : List.Perm out (cands.map (fun row =>
      make_out_rec row (candidate_allotment_lookup (alloc_run matrix jobs) jobs row.name))) := by
    rw [hout0]
    exact List.perm_insertionSort out_le _
  have hfl := (hperm.filter (fun r => r.status == "Allotted" && r.allotted_job == job.post)).length_eq
  have hle := allotted_filter_le hb hjob hnames hposts hkeys
  have hbound := alloc_run_amap_bound matrix jobs job hjob hkeys
  constructor
  · rw [hfl]
    exact le_trans hle hbound.2.1
  · intro hno1
    rcases Nat.eq_zero_or_pos job.offers with hz | hpos
    · rw [hfl, hz]
      have := hbound.2.2 hz
      rw [Nat.le_zero]
      have h0 : ((alloc_run matrix jobs).amap job.key).length = 0 := by rw [this]; rfl
      omega
    · have h2 : 2 ≤ job.offers := by omega
      rw [hfl]
      calc (_ : ℕ) ≤ ((alloc_run matrix jobs).amap job.key).length := hle
        _ ≤ max job.offers 2 := hbound.2.1
        _ = job.offers := max_eq_left h2

/-- C1 counterexample: a capacity-1 position receives two Allotted candidates
(the female quota pick and the diversity quota pick of Pass 1). -/
theorem C1_counterexample :
    (generate_smart_allotment [c1_rowA, c1_rowB] [c1_job]).map
      (fun out => (out.filter (fun r => r.status == "Allotted"
        && r.allotted_job == c1_job.post)).length) = some 2
    ∧ c1_job.offers = 1 :=
  ⟨by decide, rfl⟩

/-- C1 witness: the amended bound at a concrete capacity-2 run. -/
theorem C1_witness :
    (w1_out.filter (fun r => r.status == "Allotted"
        && r.allotted_job == w1_job.post)).length ≤ max w1_job.offers 2
    ∧ (w1_out.filter (fun r => r.status == "Allotted"
        && r.allotted_job == w1_job.post)).length ≤ w1_job.offers := by
  have h := C1_theorem w1_cands w1_jobs w1_matrix w1_out w1_job
    (by decide) (by decide) (by decide) (by decide) (by decide) (by decide)
  exact ⟨h.1, h.2 (by decide)⟩

/-- C10: if two input rows share a name and that name is assigned a match
during the run, the final output holds at least two Allotted records with
that name, that match's position and that match's scores (the lookup is
keyed by name alone). -/
theorem C10_theorem (cands : List Candidate) (jobs : List Job) (matrix : List MatchRec)
    (out : List OutRec) (l1 l2 l3 : List Candidate) (r1 r2 : Candidate) (m : MatchRec)
    (hb : build_matrix cands jobs = some matrix)
    (hout : generate_smart_allotment cands jobs = some out)
    (hsplit : cands = l1 ++ r1 :: l2 ++ r2 :: l3)
    (hname : r1.name = r2.name)
    (hlk : candidate_allotment_lookup (alloc_run matrix jobs) jobs r1.name = some m) :
    2 ≤ (out.filter (fun r => r.name == r1.name && r.status == "Allotted"
          && r.allotted_job == m.post && r.match_pct == m.total_score
          && r.skills_pct == m.all_scores.skills
          && r.education_pct == m.all_scores.education
          && r.location_pct == m.all_scores.location
          && r.interest_pct == m.all_scores.interest)).length := by
  have hout0 := generate_eq hb hout
  set p : OutRec → Bool := fun r => r.name == r1.name && r.status == "Allotted"
      && r.allotted_job == m.post && r.match_pct == m.total_score
      && r.skills_pct == m.all_scores.skills
      && r.education_pct == m.all_scores.education
      && r.location_pct == m.all_scores.location
      && r.interest_pct == m.all_scores.interest with hp
  have hperm : List.Perm out (cands.map (fun row =>
      make_out_rec row (candidate_allotment_lookup (alloc_run matrix jobs) jobs row.name))) := by
    rw [hout0]
    exact List.perm_insertionSort out_le _
  rw [(hperm.filter p).length_eq, filter_of_map, List.length_map]
  have hq1 : p (make_out_rec r1
      (candidate_allotment_lookup (alloc_run matrix jobs) jobs r1.name)) = true := by
    rw [hlk, hp]
    simp [make_out_rec]
  have hq2 : p (make_out_rec r2
      (candidate_allotment_lookup (alloc_run matrix jobs) jobs r2.name)) = true := by
    rw [← hname, hlk, hp]
    simp [make_out_rec, hname]
  rw [hsplit]
  simp only [List.filter_append, List.filter_cons, hq1, hq2, if_true, List.length_append,
    List.length_cons]
  omega

/-- C10 witness: a concrete run with two rows named `D`, producing two
Allotted records from one assignment. -/
theorem C10_witness :
    2 ≤ (w10_out.filter (fun r => r.name == w10_rowA.name && r.status == "Allotted"
          && r.allotted_job == w10_m.post && r.match_pct == w10_m.total_score
          && r.skills_pct == w10_m.all_scores.skills
          && r.education_pct == w10_m.all_scores.education
          && r.location_pct == w10_m.all_scores.location
          && r.interest_pct == w10_m.all_scores.interest)).length := by
  have h := C10_theorem w10_cands w10_jobs w10_matrix w10_out [] [] [] w10_rowA w10_rowB
    w10_m (by decide) (by decide) (by decide) (by decide) (by decide)
  exact h

/-- C6: for each position taken in order with capacity at least 1, Pass 1
first reserves the best available female, then the best available diversity
candidate; a zero-capacity position is skipped entirely; a found pick is
score-maximal among the still-available candidates with that flag; a pick
exists whenever an available flagged candidate exists; and a reservation is
global — it survives every later position's step and removes the candidate
from the Pass-2 pool. -/
theorem C6_theorem (matrix : List MatchRec) (job : Job) (st : AllocState) :
    (job.offers = 0 → pass1_job (job_pool matrix job.key) job st = st)
    ∧ (job.offers ≠ 0 →
        pass1_job (job_pool matrix job.key) job st =
          quota_pick (job_pool matrix job.key) (fun c => c.is_diversity) job.key
            (quota_pick (job_pool matrix job.key) (fun c => c.is_female) job.key st))
    ∧ (∀ bf, (job_pool matrix job.key).find?
          (fun c => c.is_female && !(st.aset.contains c.candidate_name)) = some bf →
        (quota_pick (job_pool matrix job.key) (fun c => c.is_female) job.key st).amap job.key
            = st.amap job.key ++ [bf]
        ∧ (quota_pick (job_pool matrix job.key) (fun c => c.is_female) job.key st).aset
            = bf.candidate_name :: st.aset
        ∧ bf.is_female = true
        ∧ st.aset.contains bf.candidate_name = false
        ∧ ∀ c ∈ job_pool matrix job.key, c.is_female = true →
            st.aset.contains c.candidate_name = false → c.total_score ≤ bf.total_score)
    ∧ (∀ st1, st1 = quota_pick (job_pool matrix job.key) (fun c => c.is_female) job.key st →
        ∀ bd, (job_pool matrix job.key).find?
            (fun c => c.is_diversity && !(st1.aset.contains c.candidate_name)) = some bd →
          (quota_pick (job_pool matrix job.key) (fun c => c.is_diversity) job.key st1).amap job.key
              = st1.amap job.key ++ [bd]
          ∧ bd.is_diversity = true
          ∧ st1.aset.contains bd.candidate_name = false
          ∧ ∀ c ∈ job_pool matrix job.key, c.is_diversity = true →
              st1.aset.contains c.candidate_name = false → c.total_score ≤ bd.total_score)
    ∧ (∀ (p : MatchRec → Bool) (st' : AllocState),
        (∃ c ∈ job_pool matrix job.key,
          (p c && !(st'.aset.contains c.candidate_name)) = true) →
        ∃ b, (job_pool matrix job.key).find?
          (fun c => p c && !(st'.aset.contains c.candidate_name)) = some b)
    ∧ (∀ name, name ∈ st.aset → ∀ l : List Job, name ∈ (pass1_go matrix l st).aset)
    ∧ (∀ m ∈ pass2_pool matrix st, st.aset.contains m.candidate_name = false) := by
  refine ⟨pass1_job_zero, ?_, ?_, ?_, ?_, ?_, ?_⟩
  · intro hnz
    unfold pass1_job
    rw [if_neg hnz]
  · intro bf hf
    have hq := @quota_pick_found _ _ job.key _ _ hf
    refine ⟨hq.1, hq.2.1, hq.2.2.1, hq.2.2.2, ?_⟩
    intro c hc hcf hcav
    exact find?_max_of_sorted (job_pool_sorted matrix job.key) hf c hc
      (by simp only [Bool.and_eq_true, Bool.not_eq_true']; exact ⟨hcf, hcav⟩)
  · intro st1 hst1 bd hf
    have hq := @quota_pick_found _ _ job.key _ _ hf
    refine ⟨hq.1, hq.2.2.1, hq.2.2.2, ?_⟩
    intro c hc hcd hcav
    exact find?_max_of_sorted (job_pool_sorted matrix job.key) hf c hc
      (by simp only [Bool.and_eq_true, Bool.not_eq_true']; exact ⟨hcd, hcav⟩)
  · intro p st' hex
    have hsome : ((job_pool matrix job.key).find?
        (fun c => p c && !(st'.aset.contains c.candidate_name))).isSome := by
      rw [List.find?_isSome]
      exact hex
    rcases hv : (job_pool matrix job.key).find?
        (fun c => p c && !(st'.aset.contains c.candidate_name)) with _ | b
    · rw [hv] at hsome
      exact absurd hsome (by simp)
    · exact ⟨b, rfl⟩
  · intro name h l
    exact pass1_go_aset_mono matrix l st name h
  · intro m hm
    unfold pass2_pool at hm
    rw [List.mem_insertionSort] at hm
    have := (List.mem_filter.1 hm).2
    simpa using this

/-- C6 witness: a concrete one-entry pool on which the female quota pick
fires. -/
theorem C6_witness :
    (quota_pick (job_pool [c6_m1] c6_job.key) (fun c => c.is_female) c6_job.key
        init_state).amap c6_job.key = init_state.amap c6_job.key ++ [c6_m1]
    ∧ c6_m1.is_female = true := by
  have h0 := C6_theorem c6w_matrix c6_job init_state
  have h := h0.2.2.1 c6_m1 (by decide)
  exact ⟨h.1, h.2.2.1⟩

end Claims

end SIH
